import Mathlib

/-!
Verification development for the Task Planning & Logistics search engine
(`src/module2_search/task_planner.py` together with the agent accessors of
`src/module1_state/colony_state.py`).

Modelling conventions (shallow embedding):
* Python floats are modelled exactly as rationals (`ℚ`); every concrete
  fixture below only produces values that are exact in IEEE doubles as well
  (integers and halves), so the model and the original agree on them.
* `math.hypot` is modelled by `hypot`, the integer square root of
  `dx² + dy²` (coordinates are `int` pairs per the source type hints).  This
  is exact whenever the true Euclidean distance is an integer; every
  concrete fixture below is axis-aligned, so all hypot values used in
  concrete evaluations are exact.
* Python dicts are modelled as association lists in insertion order
  (CPython dicts are insertion ordered); dicts used as *keys with
  extensional equality* (the assignment-search state) are kept in a
  canonical sorted form, which is a faithful quotient of dict equality.
  Python sets are modelled as insertion-ordered duplicate-free lists; the
  task-id sets of the assignment search are kept sorted (canonical), which
  is a faithful quotient of set equality.
* `heapq` pops the least tuple under lexicographic comparison; duplicated
  keys never occur in the heaps of this program (explicit tie-break
  counters / strictly-improving g-scores), so `popMin` (leftmost least
  entry) is a faithful model.
* Unbounded `while`/recursion is modelled with an explicit fuel parameter;
  the top-level wrappers instantiate a generous fuel, and all universally
  quantified theorems below are proved for every fuel.
-/

namespace PlannerModel

/-- Python `int(x)` on a real value: truncation toward zero (the rational's
denominator is positive, so truncating division of numerator by denominator
is exactly Python `int`). -/
def pyInt (q : ℚ) : ℤ := q.num.tdiv q.den

/-- Largest `k` with `k * k ≤ n` (a structurally evaluable integer square
root, kept kernel-reducible for concrete runs). -/
def natSqrt (n : ℕ) : ℕ :=
  (List.range (n + 1)).foldl (fun acc k => if k * k ≤ n then k else acc) 0

/-- Model of `math.hypot(dx, dy)` on integer displacements: the integer
square root of `dx² + dy²` (exact whenever the true distance is integral;
every concrete fixture below keeps it exact). -/
def hypot (dx dy : ℤ) : ℚ :=
  (natSqrt (dx.natAbs * dx.natAbs + dy.natAbs * dy.natAbs) : ℚ)

/-- Code-point comparison of characters (Python string ordering). -/
def charLt (a b : Char) : Bool := a.toNat < b.toNat

/-- Lexicographic code-point comparison of character lists. -/
def charListLt : List Char → List Char → Bool
  | [], [] => false
  | [], _ :: _ => true
  | _ :: _, [] => false
  | x :: xs, y :: ys => if charLt x y then true else if charLt y x then false else charListLt xs ys

/-- Lexicographic code-point comparison of strings, exactly Python's `<` on
strings (kept structural so the kernel can evaluate it). -/
def strLt (a b : String) : Bool := charListLt a.data b.data

/-- Lookup in an insertion-ordered association list (Python `d.get(k)`). -/
def alistGet {β : Type} (l : List (String × β)) (k : String) : Option β :=
  (l.find? (fun p => p.1 == k)).map (·.2)

/-- Write `d[k] = v` into an insertion-ordered association list: overwrite in
place if the key exists, else append (CPython dict semantics). -/
def alistUpsert {β : Type} (l : List (String × β)) (k : String) (v : β) :
    List (String × β) :=
  match l with
  | [] => [(k, v)]
  | (k', v') :: rest =>
    if k' = k then (k, v) :: rest else (k', v') :: alistUpsert rest k v

/-- Insert into a sorted duplicate-free list of strings (canonical model of a
Python `set` of task ids). -/
def sInsert (x : String) (l : List String) : List String :=
  match l with
  | [] => [x]
  | y :: ys =>
    if strLt x y then x :: y :: ys
    else if x = y then y :: ys
    else y :: sInsert x ys

/-- Canonical set of a list of strings (model of `{x for x in l}`). -/
def canonOf (l : List String) : List String := l.foldl (fun s x => sInsert x s) []

/-- Write `d[k] = v` into a canonically sorted integer-keyed association list
(model of the `agent_positions` dict, compared extensionally in Python). -/
def posUpsert (l : List (ℤ × String)) (k : ℤ) (v : String) : List (ℤ × String) :=
  match l with
  | [] => [(k, v)]
  | (k', v') :: rest =>
    if k < k' then (k, v) :: (k', v') :: rest
    else if k = k' then (k, v) :: rest
    else (k', v') :: posUpsert rest k v

/-- Result of pathfinding search (`PathResult`). -/
structure PathResult where
  path : List String
  cost : ℚ
  found : Bool
deriving DecidableEq, Repr

/-- A work item (`Task`).  The opaque `requirements` payload is unused by all
search logic and is omitted from the embedding. -/
structure Task where
  task_id : String
  location : ℤ × ℤ
  priority : ℤ
  estimated_duration : ℤ
deriving DecidableEq, Repr

/-- A resolved assignment (`TaskAssignment`). -/
structure TaskAssignment where
  task : Task
  agent_id : ℤ
  start_time : ℤ
  completion_time : ℤ
  resource_cost : List (String × ℚ)
  path : List String
deriving DecidableEq, Repr

/-- `DEFAULT_RESOURCE_COST` constant. -/
def DEFAULT_RESOURCE_COST : List (String × ℚ) := [("oxygen", -1), ("calories", -2)]

/-- `DEFAULT_FALLBACK_NODE` constant. -/
def DEFAULT_FALLBACK_NODE : String := "section_alpha"

/-- The colony graph (`ColonyGraph`): node set, nested edge dict, position
dict, all in insertion order. -/
structure ColonyGraph where
  nodes : List String
  edges : List (String × List (String × ℚ))
  node_positions : List (String × (ℤ × ℤ))
deriving DecidableEq, Repr

/-- Empty graph (`ColonyGraph.__init__`). -/
def ColonyGraph.empty : ColonyGraph := ⟨[], [], []⟩

/-- `ColonyGraph.add_node`.  A supplied position is always stored: the source
guard `if position:` only skips `None` (2-tuples are truthy). -/
def ColonyGraph.add_node (g : ColonyGraph) (node_id : String)
    (position : Option (ℤ × ℤ) := none) : ColonyGraph :=
  { g with
    nodes := if node_id ∈ g.nodes then g.nodes else g.nodes ++ [node_id]
    node_positions :=
      match position with
      | some p => alistUpsert g.node_positions node_id p
      | none => g.node_positions }

/-- Set `edges[from][to] = cost` (defaultdict-of-dict write). -/
def ColonyGraph.edgeWrite (g : ColonyGraph) (a b : String) (c : ℚ) : ColonyGraph :=
  { g with edges := alistUpsert g.edges a (alistUpsert ((alistGet g.edges a).getD []) b c) }

/-- `ColonyGraph.add_edge`. -/
def ColonyGraph.add_edge (g : ColonyGraph) (from_node to_node : String) (cost : ℚ)
    (bidirectional : Bool := true) : ColonyGraph :=
  let g1 := if from_node ∈ g.nodes then g else g.add_node from_node
  let g2 := if to_node ∈ g1.nodes then g1 else g1.add_node to_node
  let g3 := g2.edgeWrite from_node to_node cost
  if bidirectional then g3.edgeWrite to_node from_node cost else g3

/-- `ColonyGraph.get_neighbors`. -/
def ColonyGraph.get_neighbors (g : ColonyGraph) (node : String) : List (String × ℚ) :=
  (alistGet g.edges node).getD []

/-- `ColonyGraph.heuristic`: Euclidean distance if both positions are known,
else 0. -/
def ColonyGraph.heuristic (g : ColonyGraph) (node goal : String) : ℚ :=
  match alistGet g.node_positions node, alistGet g.node_positions goal with
  | some (x1, y1), some (x2, y2) => hypot (x2 - x1) (y2 - y1)
  | _, _ => 0

/-- `ColonyGraph.find_closest_node`: first node attaining the minimum
Euclidean distance (Python `min` keeps the first minimum). -/
def ColonyGraph.find_closest_node (g : ColonyGraph) (position : ℤ × ℤ) :
    Option String :=
  match g.node_positions with
  | [] => none
  | (n0, p0) :: rest =>
    let best := rest.foldl
      (fun (acc : String × ℚ) (np : String × (ℤ × ℤ)) =>
        let d := hypot (position.1 - np.2.1) (position.2 - np.2.2)
        if d < acc.2 then (np.1, d) else acc)
      (n0, hypot (position.1 - p0.1) (position.2 - p0.2))
    some best.1

/-- `ColonyGraph.create_default_colony_graph`: the built-in six-node colony
fixture. -/
def ColonyGraph.create_default_colony_graph : ColonyGraph :=
  (((((((((((((ColonyGraph.empty.add_node "section_alpha" (some (0, 0))).add_node
    "section_beta" (some (20, 0))).add_node "bridge" (some (10, 0))).add_node
    "storage" (some (10, 10))).add_node "life_support" (some (0, 10))).add_node
    "engineering" (some (20, 10))).add_edge "section_alpha" "bridge" 1).add_edge
    "bridge" "section_beta" 1).add_edge "bridge" "storage" (mkRat 3 2)).add_edge
    "section_alpha" "life_support" 1).add_edge "section_beta" "engineering"
    1).add_edge "storage" "life_support" (mkRat 3 2)).add_edge "storage" "engineering"
    (mkRat 3 2))

/-- An agent's `location` field: either a graph node identifier (string) or a
2D coordinate pair. -/
inductive Loc where
  | node : String → Loc
  | coord : ℤ × ℤ → Loc
deriving DecidableEq, Repr

/-- An agent record (the dict entries the planner reads: `"id"` and
`"location"`, either possibly absent). -/
structure Agent where
  id : Option ℤ
  location : Option Loc
deriving DecidableEq, Repr

/-- The slice of `ColonyState` the planner consults: the ordered agent list. -/
structure ColonyState where
  agents : List Agent
deriving DecidableEq, Repr

/-- `ColonyState.get_agent_by_id`: first agent whose `"id"` equals the target
(a missing id compares unequal to every integer). -/
def ColonyState.get_agent_by_id (s : ColonyState) (agent_id : ℤ) : Option Agent :=
  s.agents.find? (fun a => a.id == some agent_id)

/-- `TaskPlanner`: the colony-state snapshot plus the colony graph. -/
structure TaskPlanner where
  colony_state : ColonyState
  graph : ColonyGraph
deriving DecidableEq, Repr

/-- `TaskPlanner.get_agent_location_node`: a string location is used when it
is a known node; a coordinate location is mapped to the closest node. -/
def TaskPlanner.get_agent_location_node (p : TaskPlanner) (agent_id : ℤ) :
    Option String :=
  match p.colony_state.get_agent_by_id agent_id with
  | none => none
  | some a =>
    match a.location with
    | none => none
    | some (Loc.node s) => if s ∈ p.graph.nodes then some s else none
    | some (Loc.coord xy) => p.graph.find_closest_node xy

/-- `TaskPlanner.get_task_location_node`. -/
def TaskPlanner.get_task_location_node (p : TaskPlanner) (t : Task) :
    Option String :=
  p.graph.find_closest_node t.location

/-- An entry of the `astar_path` priority queue: `(f_score, g_score, node,
path)`. -/
structure AEntry where
  f : ℚ
  g : ℚ
  node : String
  path : List String
deriving DecidableEq, Repr

/-- Lexicographic `≤` on `List String` (Python list comparison). -/
def pathLe (a b : List String) : Bool :=
  match a, b with
  | [], _ => true
  | _ :: _, [] => false
  | x :: xs, y :: ys => if strLt x y then true else if strLt y x then false else pathLe xs ys

/-- Python tuple comparison on `astar_path` heap entries. -/
def aentryLe (a b : AEntry) : Bool :=
  if a.f < b.f then true else if b.f < a.f then false
  else if a.g < b.g then true else if b.g < a.g then false
  else if strLt a.node b.node then true else if strLt b.node a.node then false
  else pathLe a.path b.path

/-- Pop the least heap entry (leftmost among equals, which in this program
only happens for identical entries): model of `heapq.heappop`. -/
def popMin {α : Type} (le : α → α → Bool) : List α → Option (α × List α)
  | [] => none
  | e :: rest =>
    match popMin le rest with
    | none => some (e, [])
    | some (m, r) => if le e m then some (e, rest) else some (m, e :: r)

/-- One neighbor-relaxation step of the `astar_path` loop: skip closed
neighbors, push an entry (and record its g-score) when the tentative g-score
improves on the recorded one. -/
def astarStep (p : TaskPlanner) (goal : String) (e : AEntry) (closed' : List String)
    (acc : List AEntry × List (String × ℚ)) (nb : String × ℚ) :
    List AEntry × List (String × ℚ) :=
  if nb.1 ∈ closed' then acc
  else
    let tentative := e.g + nb.2
    let better :=
      match alistGet acc.2 nb.1 with
      | none => true
      | some old => decide (tentative < old)
    if better then
      let h := p.graph.heuristic nb.1 goal
      (acc.1 ++ [⟨tentative + h, tentative, nb.1, e.path ++ [nb.1]⟩],
       alistUpsert acc.2 nb.1 tentative)
    else acc

/-- The `while open_set:` loop of `astar_path`, with explicit fuel. -/
def astarLoop (p : TaskPlanner) (goal : String) :
    Nat → List AEntry → List String → List (String × ℚ) → PathResult
  | 0, _, _, _ => ⟨[], 0, false⟩
  | fuel + 1, open_set, closed, g_scores =>
    match popMin aentryLe open_set with
    | none => ⟨[], 0, false⟩
    | some (e, rest) =>
      if e.node ∈ closed then astarLoop p goal fuel rest closed g_scores
      else
        let closed' := e.node :: closed
        if e.node = goal then ⟨e.path, e.g, true⟩
        else
          let next := (p.graph.get_neighbors e.node).foldl
            (astarStep p goal e closed') (rest, g_scores)
          astarLoop p goal fuel next.1 closed' next.2

/-- Fuel used by the top-level loop wrappers; evaluation is lazy in the fuel,
so a generous constant only bounds, never slows, concrete runs. -/
def BIG_FUEL : Nat := 1000000

/-- `TaskPlanner.astar_path`: classic A* pathfinding on the colony graph. -/
def TaskPlanner.astar_path (p : TaskPlanner) (start goal : String) : PathResult :=
  if start ∉ p.graph.nodes ∨ goal ∉ p.graph.nodes then ⟨[], 0, false⟩
  else if start = goal then ⟨[start], 0, true⟩
  else astarLoop p goal BIG_FUEL [⟨0, 0, start, [start]⟩] [] [(start, 0)]

/-- Strict `<` on `Option ℚ` where `none` models `float('inf')`. -/
def optLt (a b : Option ℚ) : Bool :=
  match a, b with
  | _, none => a.isSome
  | none, some _ => false
  | some x, some y => decide (x < y)

/-- The neighbor loop of the depth-limited IDA* search: try each neighbor in
order through the supplied recursive call, returning the first found path
(mirroring the early `return` in the source) while tracking the minimum
f-score that exceeded the bound (`none` models infinity). -/
def idaChildren
    (recurse : List String → String → ℚ → Option (List String) × Option ℚ)
    (path : List String) (g_score : ℚ) :
    List (String × ℚ) → Option ℚ → Option (List String) × Option ℚ
  | [], min_exceeded => (none, min_exceeded)
  | nb :: rest, min_exceeded =>
    if nb.1 ∈ path then idaChildren recurse path g_score rest min_exceeded
    else
      match recurse (path ++ [nb.1]) nb.1 (g_score + nb.2) with
      | (some found, b) => (some found, b)
      | (none, nb2) =>
        idaChildren recurse path g_score rest
          (if optLt nb2 min_exceeded then nb2 else min_exceeded)

/-- The recursive depth-limited `search` helper of `idastar_path`.  The fuel
bounds recursion depth; the path never repeats a node, so any fuel larger
than the node count is never exhausted.  Returns the found path (if any) and
the minimum f-score that exceeded the bound (`none` models infinity). -/
def idaSearch (p : TaskPlanner) (goal : String) :
    Nat → List String → String → ℚ → ℚ → Option (List String) × Option ℚ
  | 0, _, _, _, _ => (none, none)
  | fuel + 1, path, node, g_score, bound =>
    let f := g_score + p.graph.heuristic node goal
    if f > bound then (none, some f)
    else if node = goal then (some path, some g_score)
    else
      idaChildren (fun pa no g => idaSearch p goal fuel pa no g bound)
        path g_score (p.graph.get_neighbors node) none

/-- The iterative-deepening outer loop of `idastar_path`. -/
def idaLoop (p : TaskPlanner) (start goal : String) : Nat → ℚ → PathResult
  | 0, _ => ⟨[], 0, false⟩
  | fuel + 1, bound =>
    match idaSearch p goal (p.graph.nodes.length + 1) [start] start 0 bound with
    | (some path, b) => ⟨path, b.getD 0, true⟩
    | (none, none) => ⟨[], 0, false⟩
    | (none, some nb) => idaLoop p start goal fuel nb

/-- `TaskPlanner.idastar_path`: iterative-deepening A* pathfinding. -/
def TaskPlanner.idastar_path (p : TaskPlanner) (start goal : String) : PathResult :=
  if start ∉ p.graph.nodes ∨ goal ∉ p.graph.nodes then ⟨[], 0, false⟩
  else if start = goal then ⟨[start], 0, true⟩
  else idaLoop p start goal BIG_FUEL (p.graph.heuristic start goal)

/-- `TaskPlanner.calculate_travel_cost`: pathfinding cost from an agent to a
task, with straight-line and zero fallbacks. -/
def TaskPlanner.calculate_travel_cost (p : TaskPlanner) (from_agent_id : ℤ)
    (to_task : Task) (use_idastar : Bool := false) : ℚ × List String :=
  match p.get_agent_location_node from_agent_id, p.get_task_location_node to_task with
  | some start_node, some goal_node =>
    if start_node = goal_node then (0, [start_node])
    else
      let result :=
        if use_idastar then p.idastar_path start_node goal_node
        else p.astar_path start_node goal_node
      (result.cost, if result.found then result.path else [])
  | _, _ =>
    match p.colony_state.get_agent_by_id from_agent_id with
    | some a =>
      match a.location with
      | some (Loc.coord (x, y)) =>
        (hypot (to_task.location.1 - x) (to_task.location.2 - y), [])
      | _ => (0, [])
    | none => (0, [])

/-- Build a `TaskAssignment` (`TaskPlanner._make_assignment`): times are
truncated to `int`, the resource cost is the standard constant. -/
def make_assignment (task : Task) (agent_id : ℤ) (start_time total_cost : ℚ)
    (path : List String) : TaskAssignment :=
  { task := task
    agent_id := agent_id
    start_time := pyInt start_time
    completion_time := pyInt (start_time + total_cost)
    resource_cost := DEFAULT_RESOURCE_COST
    path := path }

/-- `TaskPlanner._get_initial_agent_positions`: map each agent (keyed by its
id, falling back to its index) to its graph node, or to the first graph node
(or the default constant) when unmappable. -/
def TaskPlanner.get_initial_agent_positions (p : TaskPlanner) : List (ℤ × String) :=
  let fallback :=
    match p.graph.nodes.head? with
    | some n => n
    | none => DEFAULT_FALLBACK_NODE
  p.colony_state.agents.enum.foldl
    (fun pos (ia : ℕ × Agent) =>
      let aid := ia.2.id.getD (ia.1 : ℤ)
      posUpsert pos aid ((p.get_agent_location_node aid).getD fallback))
    []

/-- Position update after assigning a task: the chosen agent moves to the
task's node, when it has one. -/
def TaskPlanner.step_positions (p : TaskPlanner) (pos : List (ℤ × String))
    (t : Task) (aid : ℤ) : List (ℤ × String) :=
  match p.get_task_location_node t with
  | some n => posUpsert pos aid n
  | none => pos

/-- `TaskPlanner._calculate_heuristic`: for each remaining task, the minimum
over agents of (heuristic distance to the task node) + duration. -/
def TaskPlanner.calculate_heuristic (p : TaskPlanner) (remaining_tasks : List Task)
    (agent_positions : List (ℤ × String)) : ℚ :=
  remaining_tasks.foldl
    (fun total t =>
      let task_node := p.get_task_location_node t
      let min_cost := agent_positions.foldl
        (fun (mc : Option ℚ) (ap : ℤ × String) =>
          let travel :=
            match task_node with
            | some n => if ap.2 = n then 0 else p.graph.heuristic ap.2 n
            | none =>
              match p.colony_state.get_agent_by_id ap.1 with
              | some a =>
                match a.location with
                | some (Loc.coord (x, y)) =>
                  hypot (t.location.1 - x) (t.location.2 - y)
                | _ => 0
              | none => 0
          let task_total := travel + (t.estimated_duration : ℚ)
          match mc with
          | none => some task_total
          | some m => if task_total < m then some task_total else some m)
        none
      total + min_cost.getD (t.estimated_duration : ℚ))
    0

/-- Stable insertion maintaining descending priority (model of Python's
stable `sorted(key=priority, reverse=True)` when folded from the left). -/
def insertDescPrio (x : Task) : List Task → List Task
  | [] => [x]
  | y :: ys => if x.priority > y.priority then x :: y :: ys else y :: insertDescPrio x ys

/-- Stable descending sort of tasks by priority. -/
def sortTasksDesc (l : List Task) : List Task :=
  l.foldl (fun acc x => insertDescPrio x acc) []

/-- The inner agent scan of `TaskPlanner._greedy_assignment`: the
lowest-cost agent (travel + duration), first minimum winning. -/
def TaskPlanner.greedy_best (p : TaskPlanner) (t : Task) : Option (ℚ × ℤ × List String) :=
  p.colony_state.agents.foldl
    (fun (b : Option (ℚ × ℤ × List String)) a =>
      match a.id with
      | none => b
      | some aid =>
        let tc := p.calculate_travel_cost aid t false
        let total := tc.1 + (t.estimated_duration : ℚ)
        match b with
        | none => some (total, aid, tc.2)
        | some bb => if total < bb.1 then some (total, aid, tc.2) else some bb)
    none

/-- One task step of `TaskPlanner._greedy_assignment`, threading (assignments
so far, elapsed time, agent-position map). -/
def greedyStep (p : TaskPlanner)
    (acc : List TaskAssignment × ℚ × List (ℤ × String)) (t : Task) :
    List TaskAssignment × ℚ × List (ℤ × String) :=
  match p.greedy_best t with
  | none => acc
  | some (bc, aid, path) =>
    (acc.1 ++ [make_assignment t aid acc.2.1 bc path],
     acc.2.1 + bc,
     p.step_positions acc.2.2 t aid)

/-- `TaskPlanner._greedy_assignment`: priority-descending pass picking, per
task, the agent minimizing travel + duration (first minimum wins). -/
def TaskPlanner.greedy_assignment (p : TaskPlanner) (tasks : List Task) :
    List TaskAssignment :=
  ((sortTasksDesc tasks).foldl (greedyStep p)
    ([], 0, p.get_initial_agent_positions)).1

/-- A state of the assignment search (`AssignmentState`): canonical sorted
task-id set, canonical sorted agent-position map, elapsed time, assignments
so far, and the tie-break counter. -/
structure AssignmentState where
  assigned : List String
  agent_positions : List (ℤ × String)
  current_time : ℚ
  assignments : List TaskAssignment
  counter : ℕ
deriving DecidableEq, Repr

/-- The Python `AssignmentState.__eq__`: assigned set, position map and
elapsed time (assignments and counter excluded). -/
def stateEq (s t : AssignmentState) : Bool :=
  s.assigned == t.assigned && s.agent_positions == t.agent_positions &&
    s.current_time == t.current_time

/-- An entry of the assignment-search priority queue: `(f_score, g_score,
counter, state)`. -/
structure PEntry where
  f : ℚ
  g : ℚ
  counter : ℕ
  state : AssignmentState
deriving DecidableEq, Repr

/-- Python tuple comparison on assignment-search heap entries; the distinct
counters guarantee the state itself is never compared. -/
def pentryLe (a b : PEntry) : Bool :=
  if a.f < b.f then true else if b.f < a.f then false
  else if a.g < b.g then true else if b.g < a.g then false
  else a.counter ≤ b.counter

/-- Lookup in the `g_scores` dict keyed by state equality. -/
def gLookup (gs : List (AssignmentState × ℚ)) (st : AssignmentState) : Option ℚ :=
  (gs.find? (fun q => stateEq q.1 st)).map (·.2)

/-- Write into the `g_scores` dict keyed by state equality. -/
def gUpsert (gs : List (AssignmentState × ℚ)) (st : AssignmentState) (v : ℚ) :
    List (AssignmentState × ℚ) :=
  match gs with
  | [] => [(st, v)]
  | q :: rest => if stateEq q.1 st then (st, v) :: rest else q :: gUpsert rest st v

/-- The step cost the A*/beam assignment searches attach to choosing one task
for one agent: pathfinding travel cost from the agent's *colony-state*
location, plus duration, plus the priority penalty. -/
def TaskPlanner.assign_total_cost (p : TaskPlanner) (t : Task) (aid : ℤ) : ℚ :=
  (p.calculate_travel_cost aid t false).1 + (t.estimated_duration : ℚ) +
    ((10 - t.priority : ℤ) : ℚ) * mkRat 1 10

/-- The successor state built when assigning task `t` to agent `aid` from the
state of entry `e` (the travel cost and its path come from
`calculate_travel_cost`, i.e. from the agent's colony-state location). -/
def TaskPlanner.succState (p : TaskPlanner) (e : PEntry) (t : Task) (aid : ℤ)
    (ctr : ℕ) : AssignmentState :=
  { assigned := sInsert t.task_id e.state.assigned
    agent_positions := p.step_positions e.state.agent_positions t aid
    current_time := e.state.current_time + p.assign_total_cost t aid
    assignments := e.state.assignments ++
      [make_assignment t aid e.state.current_time (p.assign_total_cost t aid)
        (p.calculate_travel_cost aid t false).2]
    counter := ctr }

/-- One (task, agent) step of the assignment A* expansion: build the
successor, push it if its tentative g-score improves on the recorded one,
and advance the tie-break counter either way. -/
def TaskPlanner.expandStep (p : TaskPlanner) (tasks : List Task) (e : PEntry)
    (acc : List PEntry × List (AssignmentState × ℚ) × ℕ) (ta : Task × Agent) :
    List PEntry × List (AssignmentState × ℚ) × ℕ :=
  match ta.2.id with
  | none => acc
  | some aid =>
    let new_state := p.succState e ta.1 aid acc.2.2
    let tentative := e.g + p.assign_total_cost ta.1 aid
    let better :=
      match gLookup acc.2.1 new_state with
      | none => true
      | some old => decide (tentative < old)
    if better then
      let h := p.calculate_heuristic
        (tasks.filter (fun x => !(new_state.assigned.contains x.task_id)))
        new_state.agent_positions
      (acc.1 ++ [⟨tentative + h, tentative, new_state.counter, new_state⟩],
       gUpsert acc.2.1 new_state tentative, acc.2.2 + 1)
    else (acc.1, acc.2.1, acc.2.2 + 1)

/-- One expansion of the assignment A* (the successor-generation loop body):
fold over (unassigned task, agent) pairs, pushing improving successors and
threading the `g_scores` dict and the tie-break counter. -/
def TaskPlanner.expand (p : TaskPlanner) (tasks : List Task) (e : PEntry)
    (acc0 : List PEntry × List (AssignmentState × ℚ) × ℕ) :
    List PEntry × List (AssignmentState × ℚ) × ℕ :=
  let unassigned := tasks.filter (fun t => !(e.state.assigned.contains t.task_id))
  let pairs := unassigned.flatMap (fun t => p.colony_state.agents.map (fun a => (t, a)))
  pairs.foldl (p.expandStep tasks e) acc0

/-- The `while open_set:` loop of `plan_with_astar`, with explicit fuel; on
exhaustion (never reached on the fixtures below) it behaves like the
empty-open-set exit, returning the greedy fallback. -/
def planLoop (p : TaskPlanner) (tasks : List Task) (goal : List String) :
    Nat → List PEntry → List AssignmentState → List (AssignmentState × ℚ) → ℕ →
    List TaskAssignment
  | 0, _, _, _, _ => p.greedy_assignment tasks
  | fuel + 1, open_set, closed, gs, ctr =>
    match popMin pentryLe open_set with
    | none => p.greedy_assignment tasks
    | some (e, rest) =>
      if closed.any (fun c => stateEq c e.state) then
        planLoop p tasks goal fuel rest closed gs ctr
      else
        let closed' := e.state :: closed
        if e.state.assigned == goal then e.state.assignments
        else
          let nxt := p.expand tasks e (rest, gs, ctr)
          planLoop p tasks goal fuel nxt.1 closed' nxt.2.1 nxt.2.2

/-- `TaskPlanner.plan_with_astar`: A* over the assignment state space. -/
def TaskPlanner.plan_with_astar (p : TaskPlanner) (tasks : List Task) :
    List TaskAssignment :=
  if tasks.isEmpty then []
  else if p.colony_state.agents.isEmpty then []
  else
    let init : AssignmentState := ⟨[], p.get_initial_agent_positions, 0, [], 0⟩
    let goal := canonOf (tasks.map (·.task_id))
    planLoop p tasks goal BIG_FUEL [⟨0, 0, 0, init⟩] [] [(init, 0)] 1

/-- `TaskPlanner.plan_with_idastar`: delegates wholesale to
`plan_with_astar` (the source comment notwithstanding, no IDA*-specific
computation happens: `calculate_travel_cost` keeps its `use_idastar=False`
default inside the A* plan). -/
def TaskPlanner.plan_with_idastar (p : TaskPlanner) (tasks : List Task) :
    List TaskAssignment :=
  if tasks.isEmpty || p.colony_state.agents.isEmpty then []
  else p.plan_with_astar tasks

/-- A beam-search state (`BeamState`). -/
structure BState where
  assigned : List String
  agent_positions : List (ℤ × String)
  current_time : ℚ
  assignments : List TaskAssignment
  g : ℚ
deriving DecidableEq, Repr

/-- The successor beam state built when assigning task `t` to agent `aid`. -/
def TaskPlanner.succBState (p : TaskPlanner) (st : BState) (t : Task) (aid : ℤ) :
    BState :=
  { assigned := sInsert t.task_id st.assigned
    agent_positions := p.step_positions st.agent_positions t aid
    current_time := st.current_time + p.assign_total_cost t aid
    assignments := st.assignments ++
      [make_assignment t aid st.current_time (p.assign_total_cost t aid)
        (p.calculate_travel_cost aid t false).2]
    g := st.g + p.assign_total_cost t aid }

/-- One (task, agent) step of the beam expansion: append the successor with
its `g + heuristic` score. -/
def TaskPlanner.beamStep (p : TaskPlanner) (tasks : List Task) (st : BState)
    (acc : List (ℚ × BState)) (ta : Task × Agent) : List (ℚ × BState) :=
  match ta.2.id with
  | none => acc
  | some aid =>
    let ns := p.succBState st ta.1 aid
    let h := p.calculate_heuristic
      (tasks.filter (fun x => !(ns.assigned.contains x.task_id)))
      ns.agent_positions
    acc ++ [(ns.g + h, ns)]

/-- Successor generation of one beam state (the inner double loop of
`plan_with_beam_search`), in order, scored by `g + heuristic`. -/
def TaskPlanner.beam_successors (p : TaskPlanner) (tasks : List Task)
    (st : BState) : List (ℚ × BState) :=
  let unassigned := tasks.filter (fun t => !(st.assigned.contains t.task_id))
  let pairs := unassigned.flatMap (fun t => p.colony_state.agents.map (fun a => (t, a)))
  pairs.foldl (p.beamStep tasks st) []

/-- Scan one beam level in order: return the first goal state's assignments,
otherwise accumulate every state's successors. -/
def beamScan (p : TaskPlanner) (tasks : List Task) (goal : List String) :
    List BState → List (ℚ × BState) →
    Option (List TaskAssignment) × List (ℚ × BState)
  | [], acc => (none, acc)
  | st :: rest, acc =>
    if st.assigned == goal then (some st.assignments, acc)
    else beamScan p tasks goal rest (acc ++ p.beam_successors tasks st)

/-- Stable insertion by f-score (model of Python's stable
`sort(key=lambda x: x[0])` when folded from the left). -/
def insertByF (x : ℚ × BState) : List (ℚ × BState) → List (ℚ × BState)
  | [] => [x]
  | y :: ys => if x.1 < y.1 then x :: y :: ys else y :: insertByF x ys

/-- Stable sort of scored beam states by f-score. -/
def sortByF (l : List (ℚ × BState)) : List (ℚ × BState) :=
  l.foldl (fun acc x => insertByF x acc) []

/-- The level-by-level loop of `plan_with_beam_search`, with explicit fuel
(the fallback on exhaustion mirrors the empty-frontier exit). -/
def beamLoop (p : TaskPlanner) (tasks : List Task) (goal : List String)
    (beam_width : ℕ) : Nat → List BState → List TaskAssignment
  | 0, _ => p.greedy_assignment tasks
  | fuel + 1, level =>
    if level.isEmpty then p.greedy_assignment tasks
    else
      match beamScan p tasks goal level [] with
      | (some r, _) => r
      | (none, pool) =>
        beamLoop p tasks goal beam_width fuel (((sortByF pool).take beam_width).map (·.2))

/-- `TaskPlanner.plan_with_beam_search`. -/
def TaskPlanner.plan_with_beam_search (p : TaskPlanner) (tasks : List Task)
    (beam_width : ℕ := 3) : List TaskAssignment :=
  if tasks.isEmpty then []
  else if p.colony_state.agents.isEmpty then []
  else
    beamLoop p tasks (canonOf (tasks.map (·.task_id))) beam_width BIG_FUEL
      [⟨[], p.get_initial_agent_positions, 0, [], 0⟩]

/-- Total plan cost in the sense of claim C6: the sum of
`completion_time - start_time` over the returned assignments. -/
def totalPlanCost (l : List TaskAssignment) : ℤ :=
  (l.map (fun a => a.completion_time - a.start_time)).sum

/-- Sum of edge weights along a node sequence (looking each consecutive pair
up in the edge dict; absent edges — which never occur in returned paths —
count zero). -/
def pathCost (g : ColonyGraph) : List String → ℚ
  | [] => 0
  | [_] => 0
  | a :: b :: rest => ((alistGet ((alistGet g.edges a).getD []) b).getD 0) + pathCost g (b :: rest)

/-- Well-formedness of a graph's edge structure as a model of Python's
dict-of-dicts: each inner adjacency list has duplicate-free keys.  Every
graph actually built through `add_edge` satisfies this, and any list failing
it does not represent a Python dict at all. -/
def ColonyGraph.WF (g : ColonyGraph) : Prop :=
  ∀ e ∈ g.edges, (e.2.map Prod.fst).Nodup

instance (g : ColonyGraph) : Decidable g.WF := by
  unfold ColonyGraph.WF; infer_instance

/-- A planner over the default colony graph with an empty agent list (enough
for pure pathfinding checks). -/
def default_planner : TaskPlanner := ⟨⟨[]⟩, ColonyGraph.create_default_colony_graph⟩

/-! Concrete fixtures used by counterexamples and witnesses.  All coordinates
are axis-aligned and all costs integral or half-integral, so every numeric
value arising in these runs is exact both in this rational model and in the
IEEE doubles of the original program. -/

/-- Fixture graph for the pathfinding-equivalence counterexample: the direct
edge s—a (cost 10) beats the cheap detour s—b—a (cost 4) under the
position-derived heuristic, which grossly overestimates through b. -/
def cx2Graph : ColonyGraph :=
  (((((((ColonyGraph.empty.add_node "s" (some (0, 0))).add_node "a"
    (some (0, 0))).add_node "b" (some (9, 0))).add_node "g"
    (some (0, 0))).add_edge "s" "a" 10).add_edge "s" "b" 2).add_edge "b" "a"
    2).add_edge "a" "g" 2

/-- Planner over `cx2Graph` (no agents needed for pure pathfinding). -/
def cx2Planner : TaskPlanner := ⟨⟨[]⟩, cx2Graph⟩

/-- Fixture for the step-cost counterexamples: two nodes ten apart with a
cheap edge, one agent at node A, both tasks at node B. -/
def cx1Graph : ColonyGraph :=
  ((ColonyGraph.empty.add_node "A" (some (0, 0))).add_node "B"
    (some (10, 0))).add_edge "A" "B" 2

/-- Planner with a single agent sitting at node A of `cx1Graph`. -/
def cx1Planner : TaskPlanner :=
  ⟨⟨[⟨some 1, some (Loc.node "A")⟩]⟩, cx1Graph⟩

/-- First task of the step-cost fixture (at node B, duration 3). -/
def cx1Task1 : Task := ⟨"t1", (10, 0), 10, 3⟩

/-- Second task of the step-cost fixture (at node B, duration 5). -/
def cx1Task2 : Task := ⟨"t2", (10, 0), 10, 5⟩

/-- Greedy fixture tasks: same geometry as `cx1Task1`/`cx1Task2` but with
distinct priorities to exercise the priority-descending pass. -/
def cx4Task1 : Task := ⟨"t1", (10, 0), 9, 3⟩

/-- Second greedy fixture task. -/
def cx4Task2 : Task := ⟨"t2", (10, 0), 5, 5⟩

/-- Rounding fixture: a single node, one agent on it, two equal tasks whose
real step cost is 2.5 (duration 2 plus priority penalty 0.5). -/
def cx8Planner : TaskPlanner :=
  ⟨⟨[⟨some 1, some (Loc.node "A")⟩]⟩, ColonyGraph.empty.add_node "A" (some (0, 0))⟩

/-- First rounding-fixture task. -/
def cx8Task1 : Task := ⟨"t1", (0, 0), 5, 2⟩

/-- Second rounding-fixture task. -/
def cx8Task2 : Task := ⟨"t2", (0, 0), 5, 2⟩

/-- Beam-width fixture graph: agent nodes P, Q and task nodes X, Y, Z on a
line, with bipartite agent-to-task edges. -/
def cx6Graph : ColonyGraph :=
  ((((((((((ColonyGraph.empty.add_node "P" (some (0, 0))).add_node "Q"
    (some (1, 0))).add_node "X" (some (9, 0))).add_node "Y"
    (some (0, 0))).add_node "Z" (some (7, 0))).add_edge "P" "X" 1).add_edge
    "P" "Y" 2).add_edge "P" "Z" 6).add_edge "Q" "X" 2).add_edge "Q" "Y"
    3).add_edge "Q" "Z" 3

/-- Planner with two agents at P and Q of `cx6Graph`. -/
def cx6Planner : TaskPlanner :=
  ⟨⟨[⟨some 1, some (Loc.node "P")⟩, ⟨some 2, some (Loc.node "Q")⟩]⟩, cx6Graph⟩

/-- Beam-width fixture tasks. -/
def cx6Tasks : List Task :=
  [⟨"tx", (9, 0), 10, 3⟩, ⟨"ty", (0, 0), 10, 0⟩, ⟨"tz", (7, 0), 10, 1⟩]

/-- Unreachability fixture: two positioned nodes with no edges at all. -/
def cx10Planner : TaskPlanner :=
  ⟨⟨[⟨some 1, some (Loc.node "A")⟩]⟩,
   (ColonyGraph.empty.add_node "A" (some (0, 0))).add_node "B" (some (5, 0))⟩

/-- Task mapping to the isolated node B of the unreachability fixture. -/
def cx10Task : Task := ⟨"t", (5, 0), 10, 4⟩

/-- Invariant of assignment-search states: the recorded assignments carry
duplicate-free task ids, the assigned-id set is exactly the ids of the
recorded assignments, and it stays inside the requested goal set. -/
def GoodState (goal : List String) (st : AssignmentState) : Prop :=
  (st.assignments.map (fun a => a.task.task_id)).Nodup ∧
  (∀ x, x ∈ st.assigned ↔ x ∈ st.assignments.map (fun a => a.task.task_id)) ∧
  (∀ x ∈ st.assigned, x ∈ goal)

set_option maxRecDepth 1000000

set_option maxHeartbeats 2000000

/-- Claim C9: `plan_with_idastar` returns exactly the same assignment list as
`plan_with_astar` on every input; no IDA*-specific computation happens at
either the assignment or the pathfinding level (`calculate_travel_cost`
keeps its `use_idastar = false` default throughout). -/
theorem c9_plan_with_idastar_eq_plan_with_astar (p : TaskPlanner)
    (tasks : List Task) : p.plan_with_idastar tasks = p.plan_with_astar tasks := by
  by_cases h1 : tasks.isEmpty <;> by_cases h2 : p.colony_state.agents.isEmpty <;>
    simp [TaskPlanner.plan_with_idastar, TaskPlanner.plan_with_astar, h1, h2]

/-- Claim C7: every planning entry point of the embedding is a pure function
of (graph, colony state, task list, endpoints, beam width); two runs on
equal inputs return equal outputs.  The embedding resolves Python's dict/set
iteration deterministically (CPython insertion order) and models the
tie-break counters that keep the heap order total, which is what makes this
purity a faithful reading of the source. -/
theorem c7_planning_deterministic (p₁ p₂ : TaskPlanner)
    (tasks₁ tasks₂ : List Task) (s₁ s₂ g₁ g₂ : String) (w₁ w₂ : ℕ)
    (hp : p₁ = p₂) (ht : tasks₁ = tasks₂) (hs : s₁ = s₂) (hg : g₁ = g₂)
    (hw : w₁ = w₂) :
    p₁.astar_path s₁ g₁ = p₂.astar_path s₂ g₂ ∧
    p₁.idastar_path s₁ g₁ = p₂.idastar_path s₂ g₂ ∧
    p₁.plan_with_astar tasks₁ = p₂.plan_with_astar tasks₂ ∧
    p₁.plan_with_idastar tasks₁ = p₂.plan_with_idastar tasks₂ ∧
    p₁.plan_with_beam_search tasks₁ w₁ = p₂.plan_with_beam_search tasks₂ w₂ := by
  subst hp; subst ht; subst hs; subst hg; subst hw
  exact ⟨rfl, rfl, rfl, rfl, rfl⟩

/-- Witness for C7 on the step-cost fixture. -/
theorem c7_planning_deterministic_witness :
    cx1Planner.astar_path "A" "B" = cx1Planner.astar_path "A" "B" ∧
    cx1Planner.idastar_path "A" "B" = cx1Planner.idastar_path "A" "B" ∧
    cx1Planner.plan_with_astar [cx1Task1] = cx1Planner.plan_with_astar [cx1Task1] ∧
    cx1Planner.plan_with_idastar [cx1Task1] = cx1Planner.plan_with_idastar [cx1Task1] ∧
    cx1Planner.plan_with_beam_search [cx1Task1] 3 =
      cx1Planner.plan_with_beam_search [cx1Task1] 3 :=
  c7_planning_deterministic cx1Planner cx1Planner [cx1Task1] [cx1Task1]
    "A" "A" "B" "B" 3 3 rfl rfl rfl rfl rfl

/-- Counterexample to claim C3 as stated: on the default colony graph the
heuristic between `section_alpha` and `section_beta` is the Euclidean
distance 20 of their positions, while the true A* shortest-path cost is 2
(via the bridge), so the heuristic grossly exceeds the shortest-path cost. -/
theorem c3_counterexample :
    ColonyGraph.create_default_colony_graph.heuristic "section_alpha" "section_beta" = 20 ∧
    default_planner.astar_path "section_alpha" "section_beta" =
      ⟨["section_alpha", "bridge", "section_beta"], 2, true⟩ ∧
    ¬((20 : ℚ) ≤ 2) := by
  with_unfolding_all decide

/-- Claim C3 amended: on the default six-node colony graph the inequality
runs the *opposite* way round — for every ordered pair of nodes the A*
shortest-path cost is at most the heuristic value (the fixture's positions
are an order of magnitude larger than its edge weights, so the heuristic is
a gross overestimate rather than an admissible underestimate). -/
theorem c3_amended_heuristic_dominates_cost :
    (ColonyGraph.create_default_colony_graph.nodes.all (fun a =>
      ColonyGraph.create_default_colony_graph.nodes.all (fun b =>
        decide ((default_planner.astar_path a b).cost ≤
          ColonyGraph.create_default_colony_graph.heuristic a b)))) = true := by
  with_unfolding_all decide

/-- Counterexample to claim C2 as stated: on `cx2Graph` the endpoints s and g
are mutually reachable (both directions found), yet `astar_path` returns the
cost-12 direct detour (the inflated heuristic through b makes A* close node
a with a suboptimal g-score and never reopen it) while `idastar_path` finds
the optimal cost-6 path — the two costs differ. -/
theorem c2_counterexample :
    cx2Planner.astar_path "s" "g" = ⟨["s", "a", "g"], 12, true⟩ ∧
    cx2Planner.idastar_path "s" "g" = ⟨["s", "b", "a", "g"], 6, true⟩ ∧
    (cx2Planner.astar_path "g" "s").found = true ∧
    (cx2Planner.idastar_path "g" "s").found = true ∧
    (12 : ℚ) ≠ 6 := by
  with_unfolding_all decide

/-- Counterexample to claim C6 as stated: on the `cx6` fixture the beam
search returns a total plan cost of 8 with `beam_width = 1` but 9 with the
wider `beam_width = 2`; increasing the width increased the cost. -/
theorem c6_counterexample :
    totalPlanCost (cx6Planner.plan_with_beam_search cx6Tasks 1) = 8 ∧
    totalPlanCost (cx6Planner.plan_with_beam_search cx6Tasks 2) = 9 ∧
    (1 : ℕ) ≤ 2 ∧ ¬((9 : ℤ) ≤ 8) := by
  with_unfolding_all decide

/-- Counterexample to claim C8 as stated: in the `cx8` run both assignment
steps have the identical real-valued total cost 5/2 (duration 2 plus
priority penalty 1/2, zero travel), yet the recorded
`completion_time - start_time` deltas are 2 and 3 — so the delta is not any
single function of the step's real cost; it also depends on the fractional
part of the start time. -/
theorem c8_counterexample :
    (cx8Planner.plan_with_astar [cx8Task1, cx8Task2]).map
        (fun a => (a.task.task_id, a.completion_time - a.start_time)) =
      [("t1", 2), ("t2", 3)] ∧
    cx8Planner.assign_total_cost cx8Task1 1 = mkRat 5 2 ∧
    cx8Planner.assign_total_cost cx8Task2 1 = mkRat 5 2 ∧
    (2 : ℤ) ≠ 3 := by
  with_unfolding_all decide

/-- Counterexample to claim C1 as stated: in the `cx1` run the second
assignment (task t2) is charged 7 = travel(A→B) 2 + duration 5 + penalty 0,
computed from the agent's original colony-state node A — although in the
expanded search state the agent's position had already been updated to t1's
node B, from which the claimed step cost would be travel(B→B) 0 + 5 + 0 = 5. -/
theorem c1_counterexample :
    (cx1Planner.plan_with_astar [cx1Task1, cx1Task2]).map
        (fun a => (a.task.task_id, a.agent_id, a.start_time, a.completion_time, a.path)) =
      [("t1", 1, 0, 5, ["A", "B"]), ("t2", 1, 5, 12, ["A", "B"])] ∧
    cx1Planner.get_task_location_node cx1Task1 = some "B" ∧
    cx1Planner.get_task_location_node cx1Task2 = some "B" ∧
    (cx1Planner.astar_path "B" "B").cost = 0 ∧
    cx1Planner.assign_total_cost cx1Task2 1 = 7 ∧
    (cx1Planner.astar_path "B" "B").cost + (cx1Task2.estimated_duration : ℚ) +
        ((10 - cx1Task2.priority : ℤ) : ℚ) * mkRat 1 10 = 5 ∧
    (7 : ℚ) ≠ 5 := by
  with_unfolding_all decide

/-- Counterexample to claim C4 as stated: in the greedy run on the `cx4`
tasks the second task's cost is 7 = travel(A→B) 2 + duration 5, computed
from the agent's original colony-state node A — although the greedy pass had
already "moved" the agent to t1's node B, from which the claimed cost would
be travel(B→B) 0 + 5 = 5.  The maintained position map is written but never
read back. -/
theorem c4_counterexample :
    (cx1Planner.greedy_assignment [cx4Task1, cx4Task2]).map
        (fun a => (a.task.task_id, a.agent_id, a.start_time, a.completion_time)) =
      [("t1", 1, 0, 5), ("t2", 1, 5, 12)] ∧
    cx1Planner.get_task_location_node cx4Task1 = some "B" ∧
    (cx1Planner.astar_path "B" "B").cost = 0 ∧
    (cx1Planner.astar_path "B" "B").cost + (cx4Task2.estimated_duration : ℚ) = 5 ∧
    (cx1Planner.calculate_travel_cost 1 cx4Task2 false).1 +
      (cx4Task2.estimated_duration : ℚ) = 7 ∧
    (7 : ℚ) ≠ 5 := by
  with_unfolding_all decide

/-- Unsuccessful A* runs return the all-zero result record: the loop's only
successful exit sets `found`. -/
theorem astarLoop_notfound (p : TaskPlanner) (goal : String) :
    ∀ (fuel : ℕ) (os : List AEntry) (cl : List String) (gs : List (String × ℚ)),
      (astarLoop p goal fuel os cl gs).found = false →
      astarLoop p goal fuel os cl gs = ⟨[], 0, false⟩ := by
  intro fuel
  induction fuel with
  | zero => intro os cl gs _; rfl
  | succ n ih =>
    intro os cl gs h
    rw [astarLoop] at h ⊢
    cases hpop : popMin aentryLe os with
    | none => rfl
    | some pr =>
      obtain ⟨e, rest⟩ := pr
      rw [hpop] at h
      dsimp only at h ⊢
      by_cases hc : e.node ∈ cl
      · rw [if_pos hc] at h ⊢; exact ih _ _ _ h
      · rw [if_neg hc] at h ⊢
        by_cases hg : e.node = goal
        · simp [if_pos hg] at h
        · simp only [if_neg hg] at h ⊢; exact ih _ _ _ h

/-- Unsuccessful `astar_path` calls return the all-zero result record. -/
theorem astar_path_notfound (p : TaskPlanner) (s g : String)
    (h : (p.astar_path s g).found = false) : p.astar_path s g = ⟨[], 0, false⟩ := by
  unfold TaskPlanner.astar_path at h ⊢
  by_cases h1 : s ∉ p.graph.nodes ∨ g ∉ p.graph.nodes
  · rw [if_pos h1]
  · rw [if_neg h1] at h ⊢
    by_cases h2 : s = g
    · simp [if_pos h2] at h
    · rw [if_neg h2] at h ⊢; exact astarLoop_notfound p g _ _ _ _ h

/-- Claim C10: when agent and task both map to graph nodes, the nodes differ,
and pathfinding fails to connect them, `calculate_travel_cost` prices the
trip at 0.0 with an empty path — unreachable task locations are costed as
free rather than infinite or an error. -/
theorem c10_unreachable_travel_is_free (p : TaskPlanner) (aid : ℤ) (t : Task)
    (s g : String)
    (hs : p.get_agent_location_node aid = some s)
    (hg : p.get_task_location_node t = some g)
    (hne : s ≠ g)
    (hnf : (p.astar_path s g).found = false) :
    p.calculate_travel_cost aid t false = (0, []) := by
  have hres := astar_path_notfound p s g hnf
  unfold TaskPlanner.calculate_travel_cost
  rw [hs, hg]
  simp only [if_neg hne, Bool.false_eq_true, if_false, hres]

/-- Witness for C10 on the edgeless two-node fixture. -/
theorem c10_unreachable_travel_is_free_witness :
    (cx10Planner.get_agent_location_node 1 = some "A" ∧
      cx10Planner.get_task_location_node cx10Task = some "B" ∧
      "A" ≠ "B" ∧ (cx10Planner.astar_path "A" "B").found = false) ∧
    cx10Planner.calculate_travel_cost 1 cx10Task false = (0, []) :=
  ⟨by with_unfolding_all decide,
   c10_unreachable_travel_is_free cx10Planner 1 cx10Task "A" "B"
     (by with_unfolding_all decide) (by with_unfolding_all decide)
     (by with_unfolding_all decide) (by with_unfolding_all decide)⟩

/-- Truncation agrees with the floor on nonnegative rationals. -/
theorem pyInt_eq_floor_of_nonneg (q : ℚ) (h : 0 ≤ q) : pyInt q = ⌊q⌋ := by
  unfold pyInt
  rw [Int.tdiv_eq_ediv (Rat.num_nonneg.mpr h) (Int.ofNat_nonneg q.den)]
  exact (Rat.floor_def).symm

/-- Claim C8 amended: an assignment's start and completion are the Python
`int` truncations of the real start time and of start + total cost; whenever
both the start time and the step cost are nonnegative (as in every planner
run over nonnegative costs), completion is at least start.  The recorded
duration `completion - start` is `trunc(start + cost) - trunc(start)`, which
is *not* a function of the cost alone (see the counterexample). -/
theorem c8_amended_rounding (task : Task) (aid : ℤ) (start_time total_cost : ℚ)
    (path : List String) (h0 : 0 ≤ start_time) (h1 : 0 ≤ total_cost) :
    (make_assignment task aid start_time total_cost path).start_time = pyInt start_time ∧
    (make_assignment task aid start_time total_cost path).completion_time =
      pyInt (start_time + total_cost) ∧
    (make_assignment task aid start_time total_cost path).start_time ≤
      (make_assignment task aid start_time total_cost path).completion_time := by
  refine ⟨rfl, rfl, ?_⟩
  show pyInt start_time ≤ pyInt (start_time + total_cost)
  rw [pyInt_eq_floor_of_nonneg _ h0,
    pyInt_eq_floor_of_nonneg _ (add_nonneg h0 h1)]
  exact Int.floor_le_floor (le_add_of_nonneg_right h1)

/-- Witness for the amended C8 at start 5/2, cost 5/2. -/
theorem c8_amended_rounding_witness :
    ((0 : ℚ) ≤ mkRat 5 2 ∧ (0 : ℚ) ≤ mkRat 5 2) ∧
    ((make_assignment cx8Task2 1 (mkRat 5 2) (mkRat 5 2) []).start_time =
        pyInt (mkRat 5 2) ∧
      (make_assignment cx8Task2 1 (mkRat 5 2) (mkRat 5 2) []).completion_time =
        pyInt (mkRat 5 2 + mkRat 5 2) ∧
      (make_assignment cx8Task2 1 (mkRat 5 2) (mkRat 5 2) []).start_time ≤
        (make_assignment cx8Task2 1 (mkRat 5 2) (mkRat 5 2) []).completion_time) :=
  ⟨by with_unfolding_all decide,
   c8_amended_rounding cx8Task2 1 (mkRat 5 2) (mkRat 5 2) []
     (by with_unfolding_all decide) (by with_unfolding_all decide)⟩

/-- The greedy fold's assignments and elapsed time never depend on the
threaded agent-position map. -/
theorem greedyFold_pos_independent (p : TaskPlanner) :
    ∀ (ts : List Task) (asg : List TaskAssignment) (time : ℚ)
      (pos₁ pos₂ : List (ℤ × String)),
      (ts.foldl (greedyStep p) (asg, time, pos₁)).1 =
        (ts.foldl (greedyStep p) (asg, time, pos₂)).1 ∧
      (ts.foldl (greedyStep p) (asg, time, pos₁)).2.1 =
        (ts.foldl (greedyStep p) (asg, time, pos₂)).2.1 := by
  intro ts
  induction ts with
  | nil => intro asg time pos₁ pos₂; exact ⟨rfl, rfl⟩
  | cons t ts ih =>
    intro asg time pos₁ pos₂
    simp only [List.foldl_cons]
    unfold greedyStep
    cases p.greedy_best t with
    | none => exact ih asg time pos₁ pos₂
    | some b =>
      obtain ⟨bc, aid, path⟩ := b
      exact ih _ _ _ _

/-- Claim C4 amended: the greedy fallback's result is the priority-descending
fold whose per-task costs come from `calculate_travel_cost`, i.e. from each
agent's original colony-state position; the position map the fold maintains
is never read back, so the result is identical for *any* initial position
map — previously assigned agents are not re-priced from their last task's
node. -/
theorem c4_amended_greedy_ignores_positions (p : TaskPlanner) (tasks : List Task)
    (pos : List (ℤ × String)) :
    p.greedy_assignment tasks =
      ((sortTasksDesc tasks).foldl (greedyStep p) ([], 0, pos)).1 := by
  unfold TaskPlanner.greedy_assignment
  exact (greedyFold_pos_independent p _ [] 0 _ pos).1

/-- A `contains = false` check certifies non-membership (strings have a
lawful `BEq`). -/
theorem contains_false_not_mem {l : List String} {x : String}
    (h : l.contains x = false) : x ∉ l := by
  intro hx
  rw [show l.contains x = l.elem x from rfl, List.elem_eq_true_of_mem hx] at h
  exact Bool.noConfusion h

/-- Every entry produced by folding `expandStep` over (task, agent) pairs is
either already in the accumulator or is the successor of `e` for one of the
pairs, with g-score `e.g` plus the colony-state-based step cost. -/
theorem foldl_expandStep_mem (p : TaskPlanner) (tasks : List Task) (e : PEntry)
    (pe : PEntry) :
    ∀ (l : List (Task × Agent)) (acc : List PEntry × List (AssignmentState × ℚ) × ℕ),
      pe ∈ (l.foldl (p.expandStep tasks e) acc).1 →
      pe ∈ acc.1 ∨ ∃ ta, ta ∈ l ∧ ∃ aid ctr, ta.2.id = some aid ∧
        pe.g = e.g + p.assign_total_cost ta.1 aid ∧
        pe.state = p.succState e ta.1 aid ctr := by
  intro l
  induction l with
  | nil => intro acc h; exact Or.inl h
  | cons x xs ih =>
    intro acc h
    simp only [List.foldl_cons] at h
    rcases ih _ h with h1 | ⟨ta, hta, aid, ctr, hid, hg, hst⟩
    · unfold TaskPlanner.expandStep at h1
      cases hx : x.2.id with
      | none => rw [hx] at h1; exact Or.inl h1
      | some aid =>
        rw [hx] at h1
        dsimp only at h1
        by_cases hb : (match gLookup acc.2.1 (p.succState e x.1 aid acc.2.2) with
          | none => true
          | some old => decide (e.g + p.assign_total_cost x.1 aid < old)) = true
        · rw [if_pos hb] at h1
          rcases List.mem_append.mp h1 with h2 | h2
          · exact Or.inl h2
          · rcases List.mem_singleton.mp h2 with rfl
            exact Or.inr ⟨x, List.mem_cons_self x xs, aid, acc.2.2, hx, rfl, rfl⟩
        · rw [if_neg hb] at h1; exact Or.inl h1
    · exact Or.inr ⟨ta, List.mem_cons_of_mem x hta, aid, ctr, hid, hg, hst⟩

/-- Every entry pushed by one assignment-A* expansion comes from choosing an
unassigned task and an agent with an id, and its g-score increment is the
colony-state-based step cost. -/
theorem expand_mem (p : TaskPlanner) (tasks : List Task) (e : PEntry)
    (acc : List PEntry × List (AssignmentState × ℚ) × ℕ) (pe : PEntry)
    (hpe : pe ∈ (p.expand tasks e acc).1) :
    pe ∈ acc.1 ∨ ∃ t aid, t ∈ tasks ∧ t.task_id ∉ e.state.assigned ∧
      (∃ a, a ∈ p.colony_state.agents ∧ a.id = some aid) ∧
      ∃ ctr, pe.g = e.g + p.assign_total_cost t aid ∧
        pe.state = p.succState e t aid ctr := by
  rcases foldl_expandStep_mem p tasks e pe _ acc hpe with h | ⟨ta, hta, aid, ctr, hid, hg, hst⟩
  · exact Or.inl h
  · rcases List.mem_flatMap.mp hta with ⟨t, ht, hmem⟩
    rcases List.mem_map.mp hmem with ⟨a, ha, rfl⟩
    rcases List.mem_filter.mp ht with ⟨htask, hcontains⟩
    refine Or.inr ⟨t, aid, htask, ?_, ⟨a, ha, hid⟩, ctr, hg, hst⟩
    exact contains_false_not_mem (by simpa using hcontains)

/-- The popped heap entry is an element of the heap. -/
theorem popMin_mem {α : Type} (le : α → α → Bool) :
    ∀ (l : List α) (e : α) (r : List α), popMin le l = some (e, r) → e ∈ l := by
  intro l
  induction l with
  | nil => intro e r h; exact Option.noConfusion h
  | cons x rest ih =>
    intro e r h
    rw [popMin] at h
    cases hr : popMin le rest with
    | none =>
      rw [hr] at h
      obtain ⟨rfl, rfl⟩ := Prod.mk.injEq .. ▸ Option.some.injEq .. ▸ h
      exact List.mem_cons_self x rest
    | some pr =>
      obtain ⟨m, r'⟩ := pr
      rw [hr] at h
      dsimp only at h
      by_cases hle : le x m
      · rw [if_pos hle] at h
        obtain ⟨rfl, rfl⟩ := Prod.mk.injEq .. ▸ Option.some.injEq .. ▸ h
        exact List.mem_cons_self x rest
      · rw [if_neg hle] at h
        obtain ⟨rfl, rfl⟩ := Prod.mk.injEq .. ▸ Option.some.injEq .. ▸ h
        exact List.mem_cons_of_mem x (ih m r' hr)

/-- The heap remainder after a pop is a sublist of the heap. -/
theorem popMin_rest {α : Type} (le : α → α → Bool) :
    ∀ (l : List α) (e : α) (r : List α), popMin le l = some (e, r) →
      ∀ x ∈ r, x ∈ l := by
  intro l
  induction l with
  | nil => intro e r h; exact Option.noConfusion h
  | cons y rest ih =>
    intro e r h x hx
    rw [popMin] at h
    cases hr : popMin le rest with
    | none =>
      rw [hr] at h
      obtain ⟨rfl, rfl⟩ := Prod.mk.injEq .. ▸ Option.some.injEq .. ▸ h
      exact absurd hx (List.not_mem_nil x)
    | some pr =>
      obtain ⟨m, r'⟩ := pr
      rw [hr] at h
      dsimp only at h
      by_cases hle : le y m
      · rw [if_pos hle] at h
        obtain ⟨rfl, rfl⟩ := Prod.mk.injEq .. ▸ Option.some.injEq .. ▸ h
        exact List.mem_cons_of_mem y hx
      · rw [if_neg hle] at h
        obtain ⟨rfl, rfl⟩ := Prod.mk.injEq .. ▸ Option.some.injEq .. ▸ h
        rcases List.mem_cons.mp hx with rfl | hx'
        · exact List.mem_cons_self x rest
        · exact List.mem_cons_of_mem y (ih m r' hr x hx')

/-- Appending one existing edge to a path adds its weight to the path cost. -/
theorem pathCost_append (g : ColonyGraph) :
    ∀ (path : List String) (last nb : String) (c : ℚ),
      path.getLast? = some last →
      alistGet ((alistGet g.edges last).getD []) nb = some c →
      pathCost g (path ++ [nb]) = pathCost g path + c := by
  intro path
  induction path with
  | nil => intro last nb c h _; exact Option.noConfusion h
  | cons a rest ih =>
    intro last nb c hlast hedge
    cases rest with
    | nil =>
      have : a = last := by
        simpa using hlast
      subst this
      simp [pathCost, hedge]
    | cons b rest' =>
      have hlast' : (b :: rest').getLast? = some last := by
        rw [← List.getLast?_cons_cons]; exact hlast
      have step := ih last nb c hlast' hedge
      simp only [List.cons_append] at step ⊢
      rw [pathCost, pathCost, step, add_assoc]

/-- In a dict-well-formed graph, membership in a neighbor list determines the
edge-dict lookup. -/
theorem get_neighbors_lookup (g : ColonyGraph) (hwf : g.WF) (n : String)
    (nb : String) (c : ℚ) (h : (nb, c) ∈ g.get_neighbors n) :
    alistGet ((alistGet g.edges n).getD []) nb = some c := by
  unfold ColonyGraph.get_neighbors at h
  cases hget : alistGet g.edges n with
  | none => rw [hget] at h; exact absurd h (List.not_mem_nil _)
  | some inner =>
    rw [hget] at h
    have hinner : (n, inner) ∈ g.edges ∨ (inner.map Prod.fst).Nodup := by
      unfold alistGet at hget
      cases hfind : g.edges.find? (fun p => p.1 == n) with
      | none => rw [hfind] at hget; exact Option.noConfusion hget
      | some pr =>
        rw [hfind] at hget
        have hmem := List.mem_of_find?_eq_some hfind
        have hbeq := List.find?_some hfind
        have h1 : pr.1 = n := by simpa using hbeq
        have h2 : pr.2 = inner := by simpa using hget
        left; rw [← h1, ← h2]; exact hmem
    have hnd : (inner.map Prod.fst).Nodup := by
      rcases hinner with hmem | hnd
      · exact hwf _ hmem
      · exact hnd
    simp only [Option.getD_some]
    clear hget hinner
    induction inner with
    | nil => exact absurd h (List.not_mem_nil _)
    | cons kv rest ih =>
      obtain ⟨k, v⟩ := kv
      simp only [List.map_cons, List.nodup_cons] at hnd
      rcases List.mem_cons.mp h with heq | hrest
      · obtain ⟨rfl, rfl⟩ := Prod.mk.injEq .. ▸ heq
        unfold alistGet
        simp [List.find?_cons_of_pos]
      · by_cases hkb : k = nb
        · subst hkb
          exact absurd
            (show k ∈ List.map Prod.fst rest by
              simpa using List.mem_map_of_mem Prod.fst hrest)
            hnd.1
        · unfold alistGet at ih ⊢
          rw [List.find?_cons_of_neg _ (by simpa using hkb)]
          exact ih hrest hnd.2

/-- Every entry produced by folding `astarStep` over a neighbor list is
either already in the accumulator or the relaxation of one of the
neighbors. -/
theorem foldl_astarStep_mem (p : TaskPlanner) (goal : String) (e : AEntry)
    (closed' : List String) (x : AEntry) :
    ∀ (l : List (String × ℚ)) (acc : List AEntry × List (String × ℚ)),
      x ∈ (l.foldl (astarStep p goal e closed') acc).1 →
      x ∈ acc.1 ∨ ∃ nb, nb ∈ l ∧
        x = ⟨e.g + nb.2 + p.graph.heuristic nb.1 goal, e.g + nb.2, nb.1,
          e.path ++ [nb.1]⟩ := by
  intro l
  induction l with
  | nil => intro acc h; exact Or.inl h
  | cons nb rest ih =>
    intro acc h
    simp only [List.foldl_cons] at h
    rcases ih _ h with h1 | ⟨nb', hnb', hx⟩
    · unfold astarStep at h1
      by_cases hc : nb.1 ∈ closed'
      · rw [if_pos hc] at h1; exact Or.inl h1
      · rw [if_neg hc] at h1
        dsimp only at h1
        by_cases hb : (match alistGet acc.2 nb.1 with
          | none => true
          | some old => decide (e.g + nb.2 < old)) = true
        · rw [if_pos hb] at h1
          rcases List.mem_append.mp h1 with h2 | h2
          · exact Or.inl h2
          · exact Or.inr ⟨nb, List.mem_cons_self nb rest, List.mem_singleton.mp h2⟩
        · rw [if_neg hb] at h1; exact Or.inl h1
    · exact Or.inr ⟨nb', List.mem_cons_of_mem nb hnb', hx⟩

/-- Loop invariant of `astar_path`: when every heap entry's g-score equals
the weight of its path (which ends at its node), a successful exit returns a
cost equal to the weight of the returned path. -/
theorem astarLoop_cost_path (p : TaskPlanner) (goal : String) (hwf : p.graph.WF) :
    ∀ (fuel : ℕ) (os : List AEntry) (cl : List String) (gs : List (String × ℚ)),
      (∀ e ∈ os, e.g = pathCost p.graph e.path ∧ e.path.getLast? = some e.node) →
      (astarLoop p goal fuel os cl gs).found = true →
      (astarLoop p goal fuel os cl gs).cost =
        pathCost p.graph (astarLoop p goal fuel os cl gs).path := by
  intro fuel
  induction fuel with
  | zero => intro os cl gs _ hf; exact Bool.noConfusion hf
  | succ n ih =>
    intro os cl gs hinv hf
    rw [astarLoop] at hf ⊢
    cases hpop : popMin aentryLe os with
    | none => rw [hpop] at hf; exact Bool.noConfusion hf
    | some pr =>
      obtain ⟨e, rest⟩ := pr
      rw [hpop] at hf
      dsimp only at hf ⊢
      have hrest : ∀ x ∈ rest, x ∈ os := popMin_rest aentryLe os e rest hpop
      have hein : e.g = pathCost p.graph e.path ∧ e.path.getLast? = some e.node :=
        hinv e (popMin_mem aentryLe os e rest hpop)
      by_cases hc : e.node ∈ cl
      · rw [if_pos hc] at hf ⊢
        exact ih rest cl gs (fun x hx => hinv x (hrest x hx)) hf
      · rw [if_neg hc] at hf ⊢
        by_cases hg : e.node = goal
        · rw [if_pos hg] at hf ⊢
          exact hein.1
        · rw [if_neg hg] at hf ⊢
          refine ih _ _ _ ?_ hf
          intro x hx
          rcases foldl_astarStep_mem p goal e (e.node :: cl) x
              (p.graph.get_neighbors e.node) (rest, gs) hx with h1 | ⟨nb, hnb, rfl⟩
          · exact hinv x (hrest x h1)
          · obtain ⟨nb1, nb2⟩ := nb
            have hlook := get_neighbors_lookup p.graph hwf e.node nb1 nb2 hnb
            constructor
            · show e.g + nb2 = pathCost p.graph (e.path ++ [nb1])
              rw [pathCost_append p.graph e.path e.node nb1 nb2 hein.2 hlook,
                ← hein.1]
            · show (e.path ++ [nb1]).getLast? = some nb1
              simp

/-- Claim C2, A* half: a successful `astar_path` returns a cost equal to the
sum of edge weights along its returned path. -/
theorem astar_path_cost_eq (p : TaskPlanner) (hwf : p.graph.WF) (s g : String)
    (hf : (p.astar_path s g).found = true) :
    (p.astar_path s g).cost = pathCost p.graph (p.astar_path s g).path := by
  unfold TaskPlanner.astar_path at hf ⊢
  by_cases h1 : s ∉ p.graph.nodes ∨ g ∉ p.graph.nodes
  · rw [if_pos h1] at hf; exact Bool.noConfusion hf
  · rw [if_neg h1] at hf ⊢
    by_cases h2 : s = g
    · rw [if_pos h2]; rfl
    · rw [if_neg h2] at hf ⊢
      refine astarLoop_cost_path p g hwf BIG_FUEL _ _ _ ?_ hf
      intro e he
      rcases List.mem_singleton.mp he with rfl
      exact ⟨rfl, rfl⟩

/-- When the recursive call reports costs faithfully, so does the neighbor
loop of the depth-limited IDA* search. -/
theorem idaChildren_found (p : TaskPlanner) (hwf : p.graph.WF) (node : String)
    (path : List String) (g_score : ℚ)
    (hlast : path.getLast? = some node) (hg : g_score = pathCost p.graph path)
    (recurse : List String → String → ℚ → Option (List String) × Option ℚ)
    (Hrec : ∀ pa no g', pa.getLast? = some no → g' = pathCost p.graph pa →
      ∀ r b, recurse pa no g' = (some r, b) → b = some (pathCost p.graph r)) :
    ∀ (l : List (String × ℚ)), (∀ nb ∈ l, nb ∈ p.graph.get_neighbors node) →
      ∀ (me : Option ℚ) (r : List String) (b : Option ℚ),
        idaChildren recurse path g_score l me = (some r, b) →
        b = some (pathCost p.graph r) := by
  intro l
  induction l with
  | nil =>
    intro _ me r b h
    rw [idaChildren] at h
    exact Option.noConfusion (Prod.mk.injEq .. ▸ h).1
  | cons nb rest ih =>
    intro hl me r b h
    rw [idaChildren] at h
    by_cases hmem : nb.1 ∈ path
    · rw [if_pos hmem] at h
      exact ih (fun x hx => hl x (List.mem_cons_of_mem nb hx)) me r b h
    · rw [if_neg hmem] at h
      cases hrec : recurse (path ++ [nb.1]) nb.1 (g_score + nb.2) with
      | mk res bb =>
        cases res with
        | some found =>
          rw [hrec] at h
          dsimp only at h
          obtain ⟨h1, h2⟩ := Prod.mk.injEq .. ▸ h
          obtain rfl : found = r := Option.some.injEq .. ▸ h1
          subst h2
          refine Hrec (path ++ [nb.1]) nb.1 (g_score + nb.2) (by simp) ?_ _ _ hrec
          have hlook := get_neighbors_lookup p.graph hwf node nb.1 nb.2
            (hl nb (List.mem_cons_self nb rest))
          rw [pathCost_append p.graph path node nb.1 nb.2 hlast hlook, hg]
        | none =>
          rw [hrec] at h
          dsimp only at h
          exact ih (fun x hx => hl x (List.mem_cons_of_mem nb hx)) _ r b h

/-- The depth-limited IDA* search reports, along with a found path, exactly
that path's weight. -/
theorem idaSearch_found (p : TaskPlanner) (goal : String) (hwf : p.graph.WF) :
    ∀ (fuel : ℕ) (path : List String) (node : String) (g_score bound : ℚ),
      path.getLast? = some node → g_score = pathCost p.graph path →
      ∀ (r : List String) (b : Option ℚ),
        idaSearch p goal fuel path node g_score bound = (some r, b) →
        b = some (pathCost p.graph r) := by
  intro fuel
  induction fuel with
  | zero =>
    intro path node g_score bound _ _ r b h
    exact Option.noConfusion (Prod.mk.injEq .. ▸ h).1
  | succ n ih =>
    intro path node g_score bound hlast hg r b h
    rw [idaSearch] at h
    by_cases hf : g_score + p.graph.heuristic node goal > bound
    · rw [if_pos hf] at h
      exact Option.noConfusion (Prod.mk.injEq .. ▸ h).1
    · rw [if_neg hf] at h
      by_cases hgoal : node = goal
      · rw [if_pos hgoal] at h
        obtain ⟨h1, h2⟩ := Prod.mk.injEq .. ▸ h
        obtain rfl := Option.some.injEq .. ▸ h1
        rw [← h2, hg]
      · rw [if_neg hgoal] at h
        exact idaChildren_found p hwf node path g_score hlast hg _
          (fun pa no g' hl hg' r' b' hr => ih pa no g' bound hl hg' r' b' hr)
          (p.graph.get_neighbors node) (fun x hx => hx) none r b h

/-- The iterative-deepening outer loop returns, on success, a cost equal to
the weight of the returned path. -/
theorem idaLoop_cost_path (p : TaskPlanner) (s goal : String) (hwf : p.graph.WF) :
    ∀ (fuel : ℕ) (bound : ℚ),
      (idaLoop p s goal fuel bound).found = true →
      (idaLoop p s goal fuel bound).cost =
        pathCost p.graph (idaLoop p s goal fuel bound).path := by
  intro fuel
  induction fuel with
  | zero => intro bound hf; exact Bool.noConfusion hf
  | succ n ih =>
    intro bound hf
    rw [idaLoop] at hf ⊢
    cases hsr : idaSearch p goal (p.graph.nodes.length + 1) [s] s 0 bound with
    | mk res bb =>
      cases res with
      | some path =>
        rw [hsr] at hf
        dsimp only at hf ⊢
        have := idaSearch_found p goal hwf (p.graph.nodes.length + 1) [s] s 0
          bound rfl rfl path bb hsr
        rw [this]
        rfl
      | none =>
        cases bb with
        | none =>
          rw [hsr] at hf
          exact Bool.noConfusion hf
        | some nb =>
          rw [hsr] at hf
          dsimp only at hf ⊢
          exact ih nb hf

/-- Claim C2 amended: on any graph whose edge structure models a Python dict
(duplicate-free inner keys — all graphs built by `add_edge` qualify), both
pathfinders return a cost field equal to the sum of the edge weights along
the returned node sequence; the other half of the original claim — that the
two returned costs are equal for all mutually reachable pairs — is refuted
on a concrete four-node graph (the position-derived heuristic can be
inconsistent with the edge weights, and this A* never reopens closed
nodes). -/
theorem c2_amended_cost_is_path_weight (p : TaskPlanner) (hwf : p.graph.WF)
    (s g : String) :
    ((p.astar_path s g).found = true →
      (p.astar_path s g).cost = pathCost p.graph (p.astar_path s g).path) ∧
    ((p.idastar_path s g).found = true →
      (p.idastar_path s g).cost = pathCost p.graph (p.idastar_path s g).path) := by
  constructor
  · exact astar_path_cost_eq p hwf s g
  · intro hf
    unfold TaskPlanner.idastar_path at hf ⊢
    by_cases h1 : s ∉ p.graph.nodes ∨ g ∉ p.graph.nodes
    · rw [if_pos h1] at hf; exact Bool.noConfusion hf
    · rw [if_neg h1] at hf ⊢
      by_cases h2 : s = g
      · rw [if_pos h2]; rfl
      · rw [if_neg h2] at hf ⊢
        exact idaLoop_cost_path p s g hwf BIG_FUEL _ hf

/-- Witness for the amended C2 on the four-node counterexample graph. -/
theorem c2_amended_cost_is_path_weight_witness :
    cx2Planner.graph.WF ∧
    (((cx2Planner.astar_path "s" "g").found = true →
        (cx2Planner.astar_path "s" "g").cost =
          pathCost cx2Planner.graph (cx2Planner.astar_path "s" "g").path) ∧
      ((cx2Planner.idastar_path "s" "g").found = true →
        (cx2Planner.idastar_path "s" "g").cost =
          pathCost cx2Planner.graph (cx2Planner.idastar_path "s" "g").path)) :=
  ⟨by with_unfolding_all decide,
   c2_amended_cost_is_path_weight cx2Planner (by with_unfolding_all decide) "s" "g"⟩

/-- Stable insertion permutes. -/
theorem insertByF_perm (x : ℚ × BState) : ∀ l, (insertByF x l).Perm (x :: l) := by
  intro l
  induction l with
  | nil => exact List.Perm.refl _
  | cons y ys ih =>
    rw [insertByF]
    by_cases hlt : x.1 < y.1
    · rw [if_pos hlt]
    · rw [if_neg hlt]
      exact (List.Perm.cons y ih).trans (List.Perm.swap x y ys)

/-- The stable sort of the beam pool permutes the pool. -/
theorem sortByF_perm (l : List (ℚ × BState)) : (sortByF l).Perm l := by
  have general : ∀ (m : List (ℚ × BState)) (acc : List (ℚ × BState)),
      (m.foldl (fun acc x => insertByF x acc) acc).Perm (acc ++ m) := by
    intro m
    induction m with
    | nil => intro acc; simp
    | cons x xs ih =>
      intro acc
      simp only [List.foldl_cons]
      refine (ih (insertByF x acc)).trans ?_
      refine (List.Perm.append_right xs (insertByF_perm x acc)).trans ?_
      exact List.perm_middle.symm
  simpa using general l []

/-- Every scored state produced by folding `beamStep` is either in the
accumulator or the successor of one of the pairs. -/
theorem foldl_beamStep_mem (p : TaskPlanner) (tasks : List Task) (st : BState)
    (x : ℚ × BState) :
    ∀ (l : List (Task × Agent)) (acc : List (ℚ × BState)),
      x ∈ l.foldl (p.beamStep tasks st) acc →
      x ∈ acc ∨ ∃ ta, ta ∈ l ∧ ∃ aid, ta.2.id = some aid ∧
        x.2 = p.succBState st ta.1 aid := by
  intro l
  induction l with
  | nil => intro acc h; exact Or.inl h
  | cons ta rest ih =>
    intro acc h
    simp only [List.foldl_cons] at h
    rcases ih _ h with h1 | ⟨ta', hta', aid, hid, hx⟩
    · unfold TaskPlanner.beamStep at h1
      cases hid : ta.2.id with
      | none => rw [hid] at h1; exact Or.inl h1
      | some aid =>
        rw [hid] at h1
        dsimp only at h1
        rcases List.mem_append.mp h1 with h2 | h2
        · exact Or.inl h2
        · rcases List.mem_singleton.mp h2 with rfl
          exact Or.inr ⟨ta, List.mem_cons_self ta rest, aid, hid, rfl⟩
    · exact Or.inr ⟨ta', List.mem_cons_of_mem ta hta', aid, hid, hx⟩

/-- Every beam successor assigns one of the requested tasks on top of the
parent state. -/
theorem beam_successors_mem (p : TaskPlanner) (tasks : List Task) (st : BState)
    (x : ℚ × BState) (h : x ∈ p.beam_successors tasks st) :
    ∃ t aid, t ∈ tasks ∧ x.2 = p.succBState st t aid := by
  rcases foldl_beamStep_mem p tasks st x _ [] h with h1 | ⟨ta, hta, aid, _, hx⟩
  · exact absurd h1 (List.not_mem_nil x)
  · rcases List.mem_flatMap.mp hta with ⟨t, ht, hmem⟩
    rcases List.mem_map.mp hmem with ⟨a, _, rfl⟩
    exact ⟨t, aid, (List.mem_filter.mp ht).1, hx⟩

/-- Every beam successor's g-score increment is the colony-state-based step
cost of its (task, agent) pair. -/
theorem beam_successors_cost (p : TaskPlanner) (tasks : List Task) (st : BState)
    (x : ℚ × BState) (h : x ∈ p.beam_successors tasks st) :
    ∃ t aid, t ∈ tasks ∧
      (∃ a, a ∈ p.colony_state.agents ∧ a.id = some aid) ∧
      x.2.g = st.g + ((p.calculate_travel_cost aid t false).1 +
        (t.estimated_duration : ℚ) + ((10 - t.priority : ℤ) : ℚ) * mkRat 1 10) := by
  rcases foldl_beamStep_mem p tasks st x _ [] h with h1 | ⟨ta, hta, aid, hid, hx⟩
  · exact absurd h1 (List.not_mem_nil x)
  · rcases List.mem_flatMap.mp hta with ⟨t, ht, hmem⟩
    rcases List.mem_map.mp hmem with ⟨a, ha, rfl⟩
    refine ⟨t, aid, (List.mem_filter.mp ht).1, ⟨a, ha, hid⟩, ?_⟩
    rw [hx]
    rfl

/-- Claim C1 amended: in both assignment-search variants — the A* expansion
and the beam successor generation — every successor generated by choosing
one unassigned task and one agent adds the step cost `travel + duration +
(10 - priority) * 0.1`, where `travel` is `calculate_travel_cost`'s cost
from the agent's ORIGINAL colony-state location; the expanded state's
updated `agent_positions` play no part in the cost. -/
theorem c1_amended_step_cost_from_colony_state (p : TaskPlanner)
    (tasks : List Task) (e : PEntry)
    (acc : List PEntry × List (AssignmentState × ℚ) × ℕ)
    (st : BState) (pe : PEntry) (x : ℚ × BState) :
    (pe ∈ (p.expand tasks e acc).1 →
      pe ∈ acc.1 ∨ ∃ t aid, t ∈ tasks ∧
        (∃ a, a ∈ p.colony_state.agents ∧ a.id = some aid) ∧
        pe.g = e.g + ((p.calculate_travel_cost aid t false).1 +
          (t.estimated_duration : ℚ) +
          ((10 - t.priority : ℤ) : ℚ) * mkRat 1 10)) ∧
    (x ∈ p.beam_successors tasks st →
      ∃ t aid, t ∈ tasks ∧
        (∃ a, a ∈ p.colony_state.agents ∧ a.id = some aid) ∧
        x.2.g = st.g + ((p.calculate_travel_cost aid t false).1 +
          (t.estimated_duration : ℚ) +
          ((10 - t.priority : ℤ) : ℚ) * mkRat 1 10)) := by
  constructor
  · intro hpe
    rcases expand_mem p tasks e acc pe hpe with h | ⟨t, aid, ht, _, ha, _, hg, _⟩
    · exact Or.inl h
    · exact Or.inr ⟨t, aid, ht, ha, hg⟩
  · intro hx
    exact beam_successors_cost p tasks st x hx

/-- Witness for the amended C1: on the `cx1` fixture the first successor of
the initial state carries g = 0 + (2 + 3 + 0) = 5, under both the A*
expansion and the beam successor generation. -/
theorem c1_amended_step_cost_from_colony_state_witness :
    ((⟨10, 5, 1, ⟨["t1"], [(1, "B")], 5,
        [make_assignment cx1Task1 1 0 5 ["A", "B"]], 1⟩⟩ : PEntry) ∈
        (cx1Planner.expand [cx1Task1, cx1Task2]
          ⟨0, 0, 0, ⟨[], [(1, "A")], 0, [], 0⟩⟩
          ([], [(⟨[], [(1, "A")], 0, [], 0⟩, 0)], 1)).1 ∧
      ((⟨10, 5, 1, ⟨["t1"], [(1, "B")], 5,
          [make_assignment cx1Task1 1 0 5 ["A", "B"]], 1⟩⟩ : PEntry) ∈
          ([] : List PEntry) ∨
        ∃ t aid, t ∈ [cx1Task1, cx1Task2] ∧
          (∃ a, a ∈ cx1Planner.colony_state.agents ∧ a.id = some aid) ∧
          (⟨10, 5, 1, ⟨["t1"], [(1, "B")], 5,
            [make_assignment cx1Task1 1 0 5 ["A", "B"]], 1⟩⟩ : PEntry).g =
            (⟨0, 0, 0, ⟨[], [(1, "A")], 0, [], 0⟩⟩ : PEntry).g +
            ((cx1Planner.calculate_travel_cost aid t false).1 +
              (t.estimated_duration : ℚ) +
              ((10 - t.priority : ℤ) : ℚ) * mkRat 1 10))) ∧
    (((10, ⟨["t1"], [(1, "B")], 5,
        [make_assignment cx1Task1 1 0 5 ["A", "B"]], 5⟩) : ℚ × BState) ∈
        cx1Planner.beam_successors [cx1Task1, cx1Task2]
          ⟨[], [(1, "A")], 0, [], 0⟩ ∧
      ∃ t aid, t ∈ [cx1Task1, cx1Task2] ∧
        (∃ a, a ∈ cx1Planner.colony_state.agents ∧ a.id = some aid) ∧
        ((10, ⟨["t1"], [(1, "B")], 5,
          [make_assignment cx1Task1 1 0 5 ["A", "B"]], 5⟩) : ℚ × BState).2.g =
          (⟨[], [(1, "A")], 0, [], 0⟩ : BState).g +
          ((cx1Planner.calculate_travel_cost aid t false).1 +
            (t.estimated_duration : ℚ) +
            ((10 - t.priority : ℤ) : ℚ) * mkRat 1 10)) :=
  ⟨⟨by with_unfolding_all decide,
    (c1_amended_step_cost_from_colony_state cx1Planner [cx1Task1, cx1Task2]
      ⟨0, 0, 0, ⟨[], [(1, "A")], 0, [], 0⟩⟩
      ([], [(⟨[], [(1, "A")], 0, [], 0⟩, 0)], 1)
      ⟨[], [(1, "A")], 0, [], 0⟩
      ⟨10, 5, 1, ⟨["t1"], [(1, "B")], 5,
        [make_assignment cx1Task1 1 0 5 ["A", "B"]], 1⟩⟩
      (10, ⟨["t1"], [(1, "B")], 5,
        [make_assignment cx1Task1 1 0 5 ["A", "B"]], 5⟩)).1
      (by with_unfolding_all decide)⟩,
   ⟨by with_unfolding_all decide,
    (c1_amended_step_cost_from_colony_state cx1Planner [cx1Task1, cx1Task2]
      ⟨0, 0, 0, ⟨[], [(1, "A")], 0, [], 0⟩⟩
      ([], [(⟨[], [(1, "A")], 0, [], 0⟩, 0)], 1)
      ⟨[], [(1, "A")], 0, [], 0⟩
      ⟨10, 5, 1, ⟨["t1"], [(1, "B")], 5,
        [make_assignment cx1Task1 1 0 5 ["A", "B"]], 1⟩⟩
      (10, ⟨["t1"], [(1, "B")], 5,
        [make_assignment cx1Task1 1 0 5 ["A", "B"]], 5⟩)).2
      (by with_unfolding_all decide)⟩⟩

/-- Claim C6 amended: with a single task the beam search returns the same
plan for every beam width ≥ 1 (the level-1 pool is sorted identically and
its head — the returned goal state — survives any nonzero truncation); the
monotonicity claimed for general fixtures fails, see the counterexample. -/
theorem c6_amended_single_task_width_independent (p : TaskPlanner) (t : Task)
    (w₁ w₂ : ℕ) (h₁ : 1 ≤ w₁) (h₂ : 1 ≤ w₂) :
    p.plan_with_beam_search [t] w₁ = p.plan_with_beam_search [t] w₂ := by
  obtain ⟨k₁, rfl⟩ : ∃ k, w₁ = k + 1 := ⟨w₁ - 1, (Nat.succ_pred_eq_of_pos h₁).symm⟩
  obtain ⟨k₂, rfl⟩ : ∃ k, w₂ = k + 1 := ⟨w₂ - 1, (Nat.succ_pred_eq_of_pos h₂).symm⟩
  unfold TaskPlanner.plan_with_beam_search
  simp only [List.isEmpty_cons, Bool.false_eq_true, if_false]
  by_cases hag : p.colony_state.agents.isEmpty
  · rw [if_pos hag, if_pos hag]
  · rw [if_neg hag, if_neg hag]
    have hbf : BIG_FUEL = 999998 + 1 + 1 := rfl
    rw [hbf, beamLoop, beamLoop]
    simp only [List.isEmpty_cons, Bool.false_eq_true, if_false]
    have hgoal : canonOf (List.map (fun x => x.task_id) [t]) = [t.task_id] := rfl
    have hinit : (([] : List String) == [t.task_id]) = false := rfl
    rw [beamScan]
    rw [hgoal]
    dsimp only
    rw [hinit]
    simp only [Bool.false_eq_true, if_false]
    rw [beamScan]
    dsimp only
    cases hpool : p.beam_successors [t]
        ⟨[], p.get_initial_agent_positions, 0, [], 0⟩ with
    | nil =>
      simp only [List.nil_append, hpool]
      have : sortByF [] = [] := rfl
      rw [this]
      simp only [List.take_nil, List.map_nil]
      rw [beamLoop, beamLoop]
      simp only [List.isEmpty_nil, if_true]
    | cons x xs =>
      simp only [List.nil_append, hpool]
      cases hsort : sortByF (x :: xs) with
      | nil =>
        have := (sortByF_perm (x :: xs)).length_eq
        rw [hsort] at this
        exact absurd this.symm (by simp)
      | cons y ys =>
        simp only [List.take_succ_cons, List.map_cons]
        have hy : y ∈ x :: xs := (sortByF_perm (x :: xs)).mem_iff.mp (hsort ▸ List.mem_cons_self y ys)
        obtain ⟨t', aid, ht', hy2⟩ := beam_successors_mem p [t]
          ⟨[], p.get_initial_agent_positions, 0, [], 0⟩ y (hpool ▸ hy)
        rcases List.mem_singleton.mp ht' with rfl
        have hgy : y.2.assigned = [t'.task_id] := by
          rw [hy2]; rfl
        have hbeq : (y.2.assigned == [t'.task_id]) = true := by
          rw [hgy]; exact beq_self_eq_true _
        rw [beamLoop, beamLoop]
        simp only [List.isEmpty_cons, Bool.false_eq_true, if_false]
        rw [beamScan, beamScan]
        rw [hbeq]
        simp

/-- Witness for the amended C6 at widths 1 and 3 on the cx6 planner. -/
theorem c6_amended_single_task_width_independent_witness :
    ((1 : ℕ) ≤ 1 ∧ (1 : ℕ) ≤ 3) ∧
    cx6Planner.plan_with_beam_search [⟨"tx", (9, 0), 10, 3⟩] 1 =
      cx6Planner.plan_with_beam_search [⟨"tx", (9, 0), 10, 3⟩] 3 :=
  ⟨⟨by decide, by decide⟩,
   c6_amended_single_task_width_independent cx6Planner ⟨"tx", (9, 0), 10, 3⟩ 1 3
     (by decide) (by decide)⟩

/-- Membership in a sorted-set insertion. -/
theorem sInsert_mem (a : String) : ∀ (l : List String) (x : String),
    x ∈ sInsert a l ↔ x = a ∨ x ∈ l := by
  intro l
  induction l with
  | nil => intro x; simp [sInsert]
  | cons y ys ih =>
    intro x
    rw [sInsert]
    by_cases h1 : strLt a y
    · rw [if_pos h1]; simp
    · rw [if_neg h1]
      by_cases h2 : a = y
      · subst h2
        rw [if_pos rfl]
        simp only [List.mem_cons]
        tauto
      · rw [if_neg h2]
        simp only [List.mem_cons, ih x]
        constructor
        · rintro (rfl | h)
          · exact Or.inr (Or.inl rfl)
          · rcases h with h | h
            · exact Or.inl h
            · exact Or.inr (Or.inr h)
        · rintro (h | h | h)
          · exact Or.inr (Or.inl h)
          · exact Or.inl h
          · exact Or.inr (Or.inr h)

/-- Membership in the canonical set of a list. -/
theorem canonOf_mem (l : List String) (x : String) : x ∈ canonOf l ↔ x ∈ l := by
  have general : ∀ (m : List String) (acc : List String),
      x ∈ m.foldl (fun s y => sInsert y s) acc ↔ x ∈ acc ∨ x ∈ m := by
    intro m
    induction m with
    | nil => intro acc; simp
    | cons y ys ih =>
      intro acc
      simp only [List.foldl_cons, ih, sInsert_mem, List.mem_cons]
      tauto
  unfold canonOf
  simpa using general l []

/-- Assigning a fresh task to any agent preserves the state invariant. -/
theorem succState_good (p : TaskPlanner) (goal : List String) (e : PEntry)
    (t : Task) (aid : ℤ) (ctr : ℕ)
    (hgood : GoodState goal e.state)
    (hnot : t.task_id ∉ e.state.assigned)
    (hid : t.task_id ∈ goal) :
    GoodState goal (p.succState e t aid ctr) := by
  obtain ⟨hnd, hiff, hsub⟩ := hgood
  have hnotids : t.task_id ∉ e.state.assignments.map (fun a => a.task.task_id) :=
    fun h => hnot ((hiff _).mpr h)
  unfold GoodState TaskPlanner.succState
  refine ⟨?_, ?_, ?_⟩
  · simp only [List.map_append, List.map_cons, List.map_nil]
    rw [List.nodup_append]
    refine ⟨hnd, List.nodup_singleton _, ?_⟩
    intro x hx hx2
    rcases List.mem_singleton.mp hx2 with rfl
    exact hnotids hx
  · intro x
    simp only [sInsert_mem, List.map_append, List.map_cons, List.map_nil,
      List.mem_append, List.mem_singleton, hiff x]
    tauto
  · intro x hx
    rcases (sInsert_mem _ _ _).mp hx with rfl | hx'
    · exact hid
    · exact hsub x hx'

/-- One assignment-A* expansion preserves the state invariant on the heap. -/
theorem expand_good (p : TaskPlanner) (tasks : List Task) (goal : List String)
    (e : PEntry) (acc : List PEntry × List (AssignmentState × ℚ) × ℕ)
    (hgood : GoodState goal e.state)
    (hacc : ∀ x ∈ acc.1, GoodState goal x.state)
    (hgoal : ∀ t ∈ tasks, t.task_id ∈ goal) :
    ∀ pe ∈ (p.expand tasks e acc).1, GoodState goal pe.state := by
  intro pe hpe
  rcases expand_mem p tasks e acc pe hpe with h | ⟨t, aid, ht, hnot, _, ctr, _, hst⟩
  · exact hacc pe h
  · rw [hst]
    exact succState_good p goal e t aid ctr hgood hnot (hgoal t ht)

/-- The assignment-A* loop either falls back to the greedy result or returns
the assignments of an invariant-satisfying state whose assigned set is
exactly the goal set. -/
theorem planLoop_cases (p : TaskPlanner) (tasks : List Task) (goal : List String)
    (hgoal : ∀ t ∈ tasks, t.task_id ∈ goal) :
    ∀ (fuel : ℕ) (os : List PEntry) (cl : List AssignmentState)
      (gs : List (AssignmentState × ℚ)) (ctr : ℕ),
      (∀ x ∈ os, GoodState goal x.state) →
      planLoop p tasks goal fuel os cl gs ctr = p.greedy_assignment tasks ∨
      ∃ st, GoodState goal st ∧ st.assigned = goal ∧
        planLoop p tasks goal fuel os cl gs ctr = st.assignments := by
  intro fuel
  induction fuel with
  | zero => intro os cl gs ctr _; exact Or.inl rfl
  | succ n ih =>
    intro os cl gs ctr hinv
    rw [planLoop]
    cases hpop : popMin pentryLe os with
    | none => exact Or.inl rfl
    | some pr =>
      obtain ⟨e, rest⟩ := pr
      dsimp only
      by_cases hc : cl.any (fun c => stateEq c e.state) = true
      · rw [if_pos hc]
        exact ih rest cl gs ctr
          (fun x hx => hinv x (popMin_rest pentryLe os e rest hpop x hx))
      · rw [if_neg hc]
        by_cases hg : (e.state.assigned == goal) = true
        · rw [if_pos hg]
          exact Or.inr ⟨e.state, hinv e (popMin_mem pentryLe os e rest hpop),
            eq_of_beq hg, rfl⟩
        · rw [if_neg hg]
          refine ih _ _ _ _ ?_
          exact expand_good p tasks goal e (rest, gs, ctr)
            (hinv e (popMin_mem pentryLe os e rest hpop))
            (fun x hx => hinv x (popMin_rest pentryLe os e rest hpop x hx))
            hgoal

/-- Stable priority insertion permutes. -/
theorem insertDescPrio_perm (x : Task) : ∀ l, (insertDescPrio x l).Perm (x :: l) := by
  intro l
  induction l with
  | nil => exact List.Perm.refl _
  | cons y ys ih =>
    rw [insertDescPrio]
    by_cases hlt : x.priority > y.priority
    · rw [if_pos hlt]
    · rw [if_neg hlt]
      exact (List.Perm.cons y ih).trans (List.Perm.swap x y ys)

/-- The stable priority-descending sort permutes the task list. -/
theorem sortTasksDesc_perm (l : List Task) : (sortTasksDesc l).Perm l := by
  have general : ∀ (m : List Task) (acc : List Task),
      (m.foldl (fun acc x => insertDescPrio x acc) acc).Perm (acc ++ m) := by
    intro m
    induction m with
    | nil => intro acc; simp
    | cons x xs ih =>
      intro acc
      simp only [List.foldl_cons]
      refine (ih (insertDescPrio x acc)).trans ?_
      refine (List.Perm.append_right xs (insertDescPrio_perm x acc)).trans ?_
      exact List.perm_middle.symm
  simpa using general l []

/-- With at least one identified agent the greedy agent scan always finds a
best agent. -/
theorem greedy_best_isSome (p : TaskPlanner) (t : Task)
    (h : ∃ a ∈ p.colony_state.agents, a.id.isSome) :
    (p.greedy_best t).isSome := by
  unfold TaskPlanner.greedy_best
  have general : ∀ (l : List Agent) (b : Option (ℚ × ℤ × List String)),
      ((∃ a ∈ l, a.id.isSome) ∨ b.isSome) →
      (l.foldl (fun b a =>
        match a.id with
        | none => b
        | some aid =>
          let tc := p.calculate_travel_cost aid t false
          let total := tc.1 + (t.estimated_duration : ℚ)
          match b with
          | none => some (total, aid, tc.2)
          | some bb => if total < bb.1 then some (total, aid, tc.2) else some bb) b).isSome := by
    intro l
    induction l with
    | nil =>
      intro b hb
      rcases hb with ⟨a, ha, _⟩ | hb
      · exact absurd ha (List.not_mem_nil a)
      · exact hb
    | cons a rest ih =>
      intro b hb
      simp only [List.foldl_cons]
      cases hid : a.id with
      | none =>
        refine ih _ ?_
        rcases hb with ⟨a', ha', hs⟩ | hb
        · rcases List.mem_cons.mp ha' with rfl | ha''
          · rw [hid] at hs; exact absurd hs (by simp)
          · exact Or.inl ⟨a', ha'', hs⟩
        · exact Or.inr hb
      | some aid =>
        refine ih _ (Or.inr ?_)
        cases b with
        | none => simp
        | some bb =>
          dsimp only
          by_cases hcmp : (p.calculate_travel_cost aid t false).1 +
              (t.estimated_duration : ℚ) < bb.1
          · rw [if_pos hcmp]; rfl
          · rw [if_neg hcmp]; rfl
  exact general _ none (Or.inl h)

/-- The greedy fold appends exactly one assignment per task, in order. -/
theorem greedyFold_ids (p : TaskPlanner)
    (hex : ∃ a ∈ p.colony_state.agents, a.id.isSome) :
    ∀ (ts : List Task) (acc : List TaskAssignment × ℚ × List (ℤ × String)),
      ((ts.foldl (greedyStep p) acc).1).map (fun a => a.task.task_id) =
        acc.1.map (fun a => a.task.task_id) ++ ts.map Task.task_id := by
  intro ts
  induction ts with
  | nil => intro acc; simp
  | cons t rest ih =>
    intro acc
    simp only [List.foldl_cons, List.map_cons]
    cases hbest : p.greedy_best t with
    | none =>
      have := greedy_best_isSome p t hex
      rw [hbest] at this
      exact absurd this (by simp)
    | some b =>
      obtain ⟨bc, aid, path⟩ := b
      rw [show greedyStep p acc t =
          (acc.1 ++ [make_assignment t aid acc.2.1 bc path],
           acc.2.1 + bc, p.step_positions acc.2.2 t aid) from by
        unfold greedyStep; rw [hbest]]
      rw [ih]
      simp [make_assignment]

/-- The greedy fallback returns one assignment per requested task, each task
id exactly once. -/
theorem greedy_bijection (p : TaskPlanner) (tasks : List Task)
    (hids : (tasks.map Task.task_id).Nodup)
    (hag : p.colony_state.agents ≠ [])
    (hsome : ∀ a ∈ p.colony_state.agents, a.id.isSome) :
    (p.greedy_assignment tasks).length = tasks.length ∧
    ∀ t ∈ tasks, ((p.greedy_assignment tasks).map
      (fun a => a.task.task_id)).count t.task_id = 1 := by
  have hex : ∃ a ∈ p.colony_state.agents, a.id.isSome := by
    obtain ⟨a, l, hl⟩ := List.exists_cons_of_ne_nil hag
    exact ⟨a, by rw [hl]; exact List.mem_cons_self a l,
      hsome a (by rw [hl]; exact List.mem_cons_self a l)⟩
  have hids_eq : (p.greedy_assignment tasks).map (fun a => a.task.task_id) =
      (sortTasksDesc tasks).map Task.task_id := by
    unfold TaskPlanner.greedy_assignment
    rw [greedyFold_ids p hex]
    simp
  have hperm : ((p.greedy_assignment tasks).map (fun a => a.task.task_id)).Perm
      (tasks.map Task.task_id) := by
    rw [hids_eq]
    exact (sortTasksDesc_perm tasks).map Task.task_id
  constructor
  · have h1 := hperm.length_eq
    simpa using h1
  · intro t ht
    rw [hperm.count_eq]
    exact List.count_eq_one_of_mem hids (List.mem_map_of_mem Task.task_id ht)

/-- Claim C5: on pairwise-distinct task ids and a nonempty agent list whose
agents all expose ids, `plan_with_astar` returns exactly one assignment per
task — `k` assignments with each of the `k` task ids appearing exactly once
(through either the search exit, by the heap invariant, or the greedy
fallback). -/
theorem c5_plan_with_astar_bijection (p : TaskPlanner) (tasks : List Task)
    (hids : (tasks.map Task.task_id).Nodup)
    (hag : p.colony_state.agents ≠ [])
    (hsome : ∀ a ∈ p.colony_state.agents, a.id.isSome) :
    (p.plan_with_astar tasks).length = tasks.length ∧
    ∀ t ∈ tasks, ((p.plan_with_astar tasks).map
      (fun a => a.task.task_id)).count t.task_id = 1 := by
  unfold TaskPlanner.plan_with_astar
  by_cases hts : tasks.isEmpty
  · rw [if_pos hts]
    have h0 : tasks = [] := by
      cases tasks with
      | nil => rfl
      | cons a l => exact absurd hts (by simp)
    subst h0
    exact ⟨rfl, fun t ht => absurd ht (List.not_mem_nil t)⟩
  · rw [if_neg hts]
    have hagb : ¬(p.colony_state.agents.isEmpty = true) := by
      cases hA : p.colony_state.agents with
      | nil => exact absurd hA hag
      | cons a l => simp
    rw [if_neg hagb]
    have hgoal : ∀ t ∈ tasks, t.task_id ∈ canonOf (tasks.map (fun x => x.task_id)) :=
      fun t ht => (canonOf_mem _ _).mpr (List.mem_map_of_mem _ ht)
    have hinit : GoodState (canonOf (tasks.map (fun x => x.task_id)))
        ⟨[], p.get_initial_agent_positions, 0, [], 0⟩ :=
      ⟨List.nodup_nil, fun x => by simp, fun x hx => absurd hx (List.not_mem_nil x)⟩
    rcases planLoop_cases p tasks (canonOf (tasks.map (fun x => x.task_id))) hgoal
        BIG_FUEL [⟨0, 0, 0, ⟨[], p.get_initial_agent_positions, 0, [], 0⟩⟩] []
        [(⟨[], p.get_initial_agent_positions, 0, [], 0⟩, 0)] 1
        (fun x hx => by
          rcases List.mem_singleton.mp hx with rfl
          exact hinit) with heq | ⟨st, hgood, hassigned, heq⟩
    · rw [heq]
      exact greedy_bijection p tasks hids hag hsome
    · rw [heq]
      obtain ⟨hnd, hiff, _⟩ := hgood
      have hmemiff : ∀ x, x ∈ st.assignments.map (fun a => a.task.task_id) ↔
          x ∈ tasks.map Task.task_id := by
        intro x
        rw [← hiff x, hassigned, canonOf_mem]
      have hperm : (st.assignments.map (fun a => a.task.task_id)).Perm
          (tasks.map Task.task_id) :=
        (List.perm_ext_iff_of_nodup hnd (by exact hids)).mpr hmemiff
      constructor
      · have h1 := hperm.length_eq
        simpa using h1
      · intro t ht
        exact List.count_eq_one_of_mem hnd
          ((hmemiff _).mpr (List.mem_map_of_mem Task.task_id ht))

/-- Witness for C5 on the two-task, one-agent fixture. -/
theorem c5_plan_with_astar_bijection_witness :
    (([cx1Task1, cx1Task2].map Task.task_id).Nodup ∧
      cx1Planner.colony_state.agents ≠ [] ∧
      ∀ a ∈ cx1Planner.colony_state.agents, a.id.isSome) ∧
    (cx1Planner.plan_with_astar [cx1Task1, cx1Task2]).length =
        [cx1Task1, cx1Task2].length ∧
    ∀ t ∈ [cx1Task1, cx1Task2],
      ((cx1Planner.plan_with_astar [cx1Task1, cx1Task2]).map
        (fun a => a.task.task_id)).count t.task_id = 1 :=
  ⟨by with_unfolding_all decide,
   c5_plan_with_astar_bijection cx1Planner [cx1Task1, cx1Task2]
     (by with_unfolding_all decide) (by with_unfolding_all decide)
     (by with_unfolding_all decide)⟩

end PlannerModel
